import Mathlib

/-!
Verification development for the network-path-visualizer backend.

Shallow embedding of:
* src/backend/path_walker.py   (PathWalker and its data model)
* src/backend/data_loader.py   (CollectedDataLoader.lookup_routes)
* src/backend/main.py          (_build_graph_engine_from_inventory)

Modelling conventions:
* Python dicts are modelled as association lists in insertion order.
* The async collector call is modelled as a pure function returning
  Except String (List RouteEntry); a raised exception is the .error case.
* Wall-clock readings (time.monotonic) are modelled by an oracle
  W.clock : Nat → Nat consumed at each successful collector call, plus a
  single W.clock_total value for TraceResult.total_time_ms.  Milliseconds
  are abstracted to Nat.
* The recursion of PathWalker._walk is embedded with explicit fuel; the
  Python function has no fuel, so termination facts are phrased as
  "enough fuel yields some result".
* The V3 Inventory class used by the walker (resolve_ip, is_firewall,
  get_device, get_mpls_label_ops, get_domain_crossing) is injected into
  PathWalker as a collaborator; it is modelled abstractly as a structure
  of functions, exactly the interface the walker consumes.
-/

set_option maxRecDepth 4000

/-- Mirrors the LabelOp dataclass of src/backend/path_walker.py. -/
structure LabelOp where
  action : String
  label : Int
  lsp_name : Option String := none
deriving DecidableEq

/-- Mirrors the DomainCrossing dataclass of src/backend/path_walker.py. -/
structure DomainCrossing where
  firewall : String
  from_domain : String
  to_domain : String
  route_type : String
deriving DecidableEq

/-- Mirrors the RouteEntry dataclass of src/backend/collectors/__init__.py.
The Python field prefix is called pfx here (prefix is reserved in Lean);
the unused metadata fields router_id and age are omitted.  The type is an
inductive because the field paths nests RouteEntry inside itself. -/
inductive RouteEntry where
  | mk (pfx protocol next_hop interface : String)
       (communities : List String) (local_pref : Option Int)
       (as_path : List String) (metric : Option Int) (vrf : String)
       (active : Bool) (paths : List RouteEntry)
       (inactive_reason : String) (peer_as : Option Int) (source : String)

def RouteEntry.pfx : RouteEntry → String
  | .mk x _ _ _ _ _ _ _ _ _ _ _ _ _ => x

def RouteEntry.protocol : RouteEntry → String
  | .mk _ x _ _ _ _ _ _ _ _ _ _ _ _ => x

def RouteEntry.next_hop : RouteEntry → String
  | .mk _ _ x _ _ _ _ _ _ _ _ _ _ _ => x

def RouteEntry.interface : RouteEntry → String
  | .mk _ _ _ x _ _ _ _ _ _ _ _ _ _ => x

def RouteEntry.communities : RouteEntry → List String
  | .mk _ _ _ _ x _ _ _ _ _ _ _ _ _ => x

def RouteEntry.local_pref : RouteEntry → Option Int
  | .mk _ _ _ _ _ x _ _ _ _ _ _ _ _ => x

def RouteEntry.as_path : RouteEntry → List String
  | .mk _ _ _ _ _ _ x _ _ _ _ _ _ _ => x

def RouteEntry.metric : RouteEntry → Option Int
  | .mk _ _ _ _ _ _ _ x _ _ _ _ _ _ => x

def RouteEntry.vrf : RouteEntry → String
  | .mk _ _ _ _ _ _ _ _ x _ _ _ _ _ => x

def RouteEntry.active : RouteEntry → Bool
  | .mk _ _ _ _ _ _ _ _ _ x _ _ _ _ => x

def RouteEntry.paths : RouteEntry → List RouteEntry
  | .mk _ _ _ _ _ _ _ _ _ _ x _ _ _ => x

def RouteEntry.inactive_reason : RouteEntry → String
  | .mk _ _ _ _ _ _ _ _ _ _ _ x _ _ => x

def RouteEntry.peer_as : RouteEntry → Option Int
  | .mk _ _ _ _ _ _ _ _ _ _ _ _ x _ => x

def RouteEntry.source : RouteEntry → String
  | .mk _ _ _ _ _ _ _ _ _ _ _ _ _ x => x

/-- Dataclass defaults of RouteEntry (all fields defaulted in Python). -/
def defaultRouteEntry : RouteEntry :=
  .mk "" "" "" "" [] none [] none "" false [] "" none ""

/-- Mirrors the per-entry summary dict built for HopResult.all_entries at
src/backend/path_walker.py lines 271-280. -/
structure EntrySummary where
  next_hop : String
  as_path : List String
  communities : List String
  lp : Option Int
  metric : Option Int
  active : Bool
  peer_as : Option Int
  protocol : String
deriving DecidableEq

/-- Mirrors the HopResult dataclass of src/backend/path_walker.py.
plugin_labels (a dict of plugin name to decoded labels) is modelled as an
association list in insertion order; plugin label values are modelled as
String-valued association lists. -/
structure HopResult where
  device : String
  role : String := ""
  next_hop : String := ""
  protocol : String := ""
  communities : List String := []
  lp : Option Int := none
  as_path : List String := []
  metric : Option Int := none
  interface : String := ""
  vrf : String := ""
  plugin_labels : List (String × List (String × String)) := []
  note : String := ""
  query_time_ms : Option Nat := none
  raw_output : String := ""
  all_entries : List EntrySummary := []
  labels : List LabelOp := []
  domain_crossing : Option DomainCrossing := none
deriving DecidableEq

/-- Mirrors the ECMPBranch dataclass of src/backend/path_walker.py. -/
structure ECMPBranch where
  parent_hop : String
  branch_index : Nat
  next_hops : List String := []
  selected_paths : List String := []
deriving DecidableEq

/-- Mirrors the TracePath dataclass of src/backend/path_walker.py; an
inductive because the field branches nests TracePath inside itself. -/
inductive TracePath where
  | mk (hops : List HopResult) (complete : Bool) (end_reason : String)
       (branches : List TracePath)

def TracePath.hops : TracePath → List HopResult
  | .mk x _ _ _ => x

def TracePath.complete : TracePath → Bool
  | .mk _ x _ _ => x

def TracePath.end_reason : TracePath → String
  | .mk _ _ x _ => x

def TracePath.branches : TracePath → List TracePath
  | .mk _ _ _ x => x

/-- Dataclass defaults of TracePath. -/
def emptyPath : TracePath := .mk [] false "" []

/-- Mirrors the TraceResult dataclass of src/backend/path_walker.py.
The Python field prefix is called pfx here. -/
structure TraceResult where
  pfx : String
  start : String
  paths : List TracePath := []
  total_time_ms : Option Nat := none
  ecmp_branches : List ECMPBranch := []
  domain_crossings : List DomainCrossing := []
  origin_type : Option String := none
  origin_router : Option String := none

/-- Mirrors the AsymmetryResult dataclass of src/backend/path_walker.py. -/
structure AsymmetryResult where
  forward_path : TraceResult
  reverse_path : TraceResult
  symmetric : Bool
  divergence_points : List Nat := []

/-- Mirrors the FailureSimResult dataclass of src/backend/path_walker.py. -/
structure FailureSimResult where
  original : TraceResult
  failover : TraceResult
  failed_node : String
  impact_summary : String
  affected_hops : List String := []
  convergence_notes : String := ""

/-- Device metadata as consumed by the walker: only the role attribute of
inventory.get_device(...) is read (src/backend/path_walker.py line 225). -/
structure Device where
  role : String := ""

/-- Interface of the injected V3 Inventory collaborator, exactly the five
methods PathWalker._walk calls (see also spec section 6.2). -/
structure Inventory where
  get_device : String → Option Device
  is_firewall : String → Bool
  resolve_ip : String → Option String
  get_mpls_label_ops : String → String → List LabelOp
  get_domain_crossing : String → String → Option DomainCrossing

/-- A community-decoder plugin: name plus a pure decode function; a raised
exception is the .error case (caught and logged by _build_hop). -/
structure CommunityDecoderPlugin where
  name : String
  decode : List String → Option Int → Except String (List (String × String))

/-- The PathWalker object: injected collaborators plus configuration
(src/backend/path_walker.py lines 118-132).  The verbose flag is omitted:
it is never read inside _walk.  clock and clock_total are the timing
oracle described in the module docstring. -/
structure Walker where
  inventory : Inventory
  collector_fn : String → String → String → Except String (List RouteEntry)
  plugins : List CommunityDecoderPlugin := []
  max_hops : Nat := 20
  max_ecmp_branches : Nat := 8
  clock : Nat → Nat := fun _ => 0
  clock_total : Nat := 0

/-- A HopResult carrying only device and note (the stub hops of _walk). -/
def stubHop (device note : String) : HopResult :=
  { device := device, note := note }

/-- The hop recorded when the collector raises (path_walker.py line 233). -/
def unreachableHop (device role e : String) : HopResult :=
  { device := device, role := role, note := "Unreachable: " ++ e }

/-- The hop recorded on an empty entry list (path_walker.py line 239). -/
def noRouteHop (device role : String) : HopResult :=
  { device := device, role := role, note := "No route found" }

/-- The hop recorded at a connected origin (path_walker.py lines 257-263). -/
def originHop (device role : String) (best : RouteEntry) : HopResult :=
  { device := device, role := role, protocol := best.protocol,
    interface := best.interface, note := "Origin — connected route" }

/-- One iteration of the plugin loop in PathWalker._build_hop: failures are
swallowed, empty label maps are not recorded. -/
def decodeStep (communities : List String) (lp : Option Int)
    (acc : List (String × List (String × String)))
    (p : CommunityDecoderPlugin) : List (String × List (String × String)) :=
  match p.decode communities lp with
  | .ok labelMap => if labelMap.isEmpty then acc else acc ++ [(p.name, labelMap)]
  | .error _ => acc

/-- Mirrors PathWalker._build_hop (path_walker.py lines 375-395). -/
def build_hop (plugins : List CommunityDecoderPlugin) (device role : String)
    (entry : RouteEntry) : HopResult :=
  { device := device, role := role, next_hop := entry.next_hop,
    protocol := entry.protocol, communities := entry.communities,
    lp := entry.local_pref, as_path := entry.as_path, metric := entry.metric,
    interface := entry.interface, vrf := entry.vrf,
    plugin_labels := plugins.foldl (decodeStep entry.communities entry.local_pref) [] }

/-- Mirrors the all_entries summary comprehension (path_walker.py 271-280). -/
def entrySummary (e : RouteEntry) : EntrySummary :=
  { next_hop := e.next_hop, as_path := e.as_path, communities := e.communities,
    lp := e.local_pref, metric := e.metric, active := e.active,
    peer_as := e.peer_as, protocol := e.protocol }

/-- Firewall preference filter of _walk (path_walker.py lines 244-248):
restrict to static/policy entries, but only when that filter is non-empty. -/
def fwFilter (is_fw : Bool) (entries : List RouteEntry) : List RouteEntry :=
  if is_fw then
    let fw_entries := entries.filter fun e =>
      e.protocol == "static" || e.protocol == "policy"
    if fw_entries.isEmpty then entries else fw_entries
  else entries

/-- Active-entry selection of _walk (path_walker.py lines 250-252): keep the
active entries, falling back to the first entry when none is active. -/
def selectActive (entries : List RouteEntry) : List RouteEntry :=
  let a := entries.filter (·.active)
  if a.isEmpty then entries.take 1 else a

/-- The filtered entry list the walker forwards from, at a device whose
inventory firewall flag is is_fw (composition of lines 244-252). -/
def activesOf (is_fw : Bool) (entries : List RouteEntry) : List RouteEntry :=
  selectActive (fwFilter is_fw entries)

/-- The best entry: index 0 of the filtered set (path_walker.py line 254).
In Python an empty list here would raise IndexError; it is unreachable
because entries is non-empty, so the default entry is never returned. -/
def bestOf (is_fw : Bool) (entries : List RouteEntry) : RouteEntry :=
  (activesOf is_fw entries).headD defaultRouteEntry

/-- Code-point lexicographic comparison of character lists: the order that
Python's sorted() applies to strings. -/
def charListLe : List Char → List Char → Bool
  | [], _ => true
  | _ :: _, [] => false
  | a :: as, b :: bs =>
    if a < b then true else if b < a then false else charListLe as bs

/-- Code-point lexicographic order on strings. -/
def strLe (a b : String) : Bool := charListLe a.data b.data

/-- strLe as a binary relation, for the sorting machinery. -/
def strLeP (a b : String) : Prop := strLe a b = true

instance : DecidableRel strLeP :=
  fun a b => inferInstanceAs (Decidable (strLe a b = true))

instance : IsTotal String strLeP := by
  constructor
  intro a b
  unfold strLeP strLe
  generalize a.data = as
  generalize b.data = bs
  induction as generalizing bs with
  | nil => left; rfl
  | cons x xs ih =>
    cases bs with
    | nil => right; rfl
    | cons y ys =>
      by_cases h1 : x < y
      · left; simp [charListLe, h1]
      · by_cases h2 : y < x
        · right; simp [charListLe, h2]
        · rcases ih ys with h | h
          · left; simp [charListLe, h1, h2, h]
          · right; simp [charListLe, h1, h2, h]

instance : IsTrans String strLeP := by
  constructor
  intro a b c
  unfold strLeP strLe
  generalize a.data = as
  generalize b.data = bs
  generalize c.data = cs
  induction as generalizing bs cs with
  | nil => intro _ _; rfl
  | cons x xs ih =>
    intro hab hbc
    cases bs with
    | nil => simp [charListLe] at hab
    | cons y ys =>
      cases cs with
      | nil => simp [charListLe] at hbc
      | cons z zs =>
        by_cases hxy : x < y
        · by_cases hyz : y < z
          · simp [charListLe, lt_trans hxy hyz]
          · by_cases hzy : z < y
            · simp [charListLe, hzy, if_neg (asymm hzy)] at hbc
            · have hyz' : y = z := le_antisymm (not_lt.mp hzy) (not_lt.mp hyz)
              subst hyz'
              simp [charListLe, hxy]
        · by_cases hyx : y < x
          · simp [charListLe, hxy, hyx] at hab
          · have hxy' : x = y := le_antisymm (not_lt.mp hyx) (not_lt.mp hxy)
            subst hxy'
            simp only [charListLe, lt_irrefl, if_neg (lt_irrefl x)] at hab
            by_cases hyz : x < z
            · simp [charListLe, hyz]
            · by_cases hzy : z < x
              · simp [charListLe, hzy, if_neg (asymm hzy)] at hbc
              · have : x = z := le_antisymm (not_lt.mp hzy) (not_lt.mp hyz)
                subst this
                simp only [charListLe, lt_irrefl, if_neg (lt_irrefl x)] at hbc
                simp [charListLe, ih _ _ hab hbc]

/-- Mirrors PathWalker._collect_next_hops (path_walker.py lines 334-345).
The Python set union followed by sorted(...) is modelled by dedup followed
by a (stable) insertion sort under the code-point lexicographic string
order. -/
def collect_next_hops (best : RouteEntry) (active_entries : List RouteEntry) :
    List String :=
  let l1 := if best.next_hop == "" then [] else [best.next_hop]
  let l2 := best.paths.filterMap fun p =>
    if p.next_hop == "" then none else some p.next_hop
  let l3 := (active_entries.drop 1).filterMap fun ae =>
    if ae.next_hop == "" then none else some ae.next_hop
  List.insertionSort strLeP (l1 ++ l2 ++ l3).dedup

/-- Role lookup at the top of a _walk frame (path_walker.py lines 224-225). -/
def roleOf (inv : Inventory) (device_name : String) : String :=
  match inv.get_device device_name with
  | some dev => dev.role
  | none => ""

/-- The forwarding hop of a frame before the domain-crossing annotation:
_build_hop plus query_time_ms, all_entries and MPLS labels
(path_walker.py lines 269-281).  Note all_entries summarises the
firewall-filtered list: line 246 rebinds entries before line 271 reads it. -/
def framedHop (W : Walker) (device_name role : String) (best : RouteEntry)
    (entries1 : List RouteEntry) (tick : Nat) : HopResult :=
  { build_hop W.plugins device_name role best with
    query_time_ms := some (W.clock tick),
    all_entries := entries1.map entrySummary,
    labels := W.inventory.get_mpls_label_ops device_name best.next_hop }

/-- Domain-crossing annotation of a frame (path_walker.py lines 283-287):
returns the possibly annotated hop and the possibly extended result. -/
def applyCrossing (inv : Inventory) (device_name : String) (best : RouteEntry)
    (hop : HopResult) (result : TraceResult) : HopResult × TraceResult :=
  match inv.get_domain_crossing device_name best.next_hop with
  | some c =>
      let c' := { c with route_type :=
        if best.protocol == "policy" then "policy" else "static" }
      ({ hop with domain_crossing := some c' },
       { result with domain_crossings := result.domain_crossings ++ [c'] })
  | none => (hop, result)

/-- Lines 269-287 of a non-terminal _walk frame in one step: the fully
annotated forwarding hop paired with the possibly extended result. -/
def frameStep (W : Walker) (device_name role : String)
    (entries : List RouteEntry) (result : TraceResult) (tick : Nat) :
    HopResult × TraceResult :=
  applyCrossing W.inventory device_name
    (bestOf (W.inventory.is_firewall device_name) entries)
    (framedHop W device_name role
      (bestOf (W.inventory.is_firewall device_name) entries)
      (fwFilter (W.inventory.is_firewall device_name) entries) tick)
    result

/-- Publication of a finished TracePath: result.paths.append(path). -/
def pushPath (result : TraceResult) (p : TracePath) : TraceResult :=
  { result with paths := result.paths ++ [p] }

/-- The ECMP loop of _walk (path_walker.py lines 323-332), parameterised by
the recursive call recFn (device, branch path, result, tick).  Each
iteration clones the parent hop list into a fresh branch path, records the
branch on the parent path, and either publishes an unknown-next-hop stub or
recurses. -/
def walkBranches
    (recFn : String → TracePath → TraceResult → Nat → Option (TraceResult × Nat))
    (inv : Inventory) :
    List String → TracePath → TraceResult → Nat → Option (TraceResult × Nat)
  | [], _, result, tick => some (result, tick)
  | nh :: rest, current, result, tick =>
    let branch : TracePath := .mk current.hops false "" []
    let current' : TracePath :=
      .mk current.hops current.complete current.end_reason
        (current.branches ++ [branch])
    match inv.resolve_ip nh with
    | none =>
        walkBranches recFn inv rest current'
          (pushPath result (.mk
            (branch.hops ++ [stubHop ("unknown (" ++ nh ++ ")")
              ("Next-hop " ++ nh ++ " not in inventory")])
            branch.complete "not_in_inventory" branch.branches))
          tick
    | some next_device =>
        match recFn next_device branch result tick with
        | none => none
        | some (r', t') => walkBranches recFn inv rest current' r' t'

/-- Mirrors PathWalker._walk (path_walker.py lines 192-332), with explicit
fuel for the recursion.  Each successful collector call consumes one clock
tick.  State threading replaces the Python in-place mutation of
current_path and result. -/
def walk (W : Walker) :
    Nat → String → String → String → List String → TracePath → TraceResult →
    Nat → List String → Nat → Option (TraceResult × Nat)
  | 0, _, _, _, _, _, _, _, _, _ => none
  | fuel + 1, pfx, device_name, vrf, visited, current, result, branch_depth,
    exclude_nodes, tick =>
    if device_name ∈ exclude_nodes then
      some (pushPath result (.mk
        (current.hops ++ [stubHop device_name "Excluded due to failure simulation"])
        false "failed_node" current.branches), tick)
    else if device_name ∈ visited then
      some (pushPath result (.mk
        (current.hops ++ [stubHop device_name "Loop detected — already visited"])
        false "loop" current.branches), tick)
    else if W.max_hops ≤ current.hops.length then
      some (pushPath result (.mk current.hops false "max_hops" current.branches),
        tick)
    else
      let visited' := device_name :: visited
      let role := roleOf W.inventory device_name
      match W.collector_fn device_name pfx vrf with
      | .error e =>
        some (pushPath result (.mk
          (current.hops ++ [unreachableHop device_name role e])
          current.complete "unreachable" current.branches), tick)
      | .ok entries =>
        if entries.isEmpty then
          some (pushPath result (.mk
            (current.hops ++ [noRouteHop device_name role])
            current.complete "blackhole" current.branches), tick + 1)
        else
          let is_fw := W.inventory.is_firewall device_name
          let best := bestOf is_fw entries
          if best.protocol == "direct" || best.protocol == "connected" ||
              best.protocol == "local" then
            some (pushPath result (.mk
              (current.hops ++ [originHop device_name role best])
              true "origin" current.branches), tick + 1)
          else
            let hr := frameStep W device_name role entries result tick
            let current1 : TracePath :=
              .mk (current.hops ++ [hr.1]) current.complete current.end_reason
                current.branches
            match collect_next_hops best (activesOf is_fw entries) with
            | [] =>
              some (pushPath hr.2 (.mk current1.hops current1.complete
                "blackhole" current1.branches), tick + 1)
            | [nh] =>
              match W.inventory.resolve_ip nh with
              | none =>
                some (pushPath hr.2 (.mk
                  (current1.hops ++ [stubHop ("unknown (" ++ nh ++ ")")
                    ("Next-hop " ++ nh ++ " not in inventory")])
                  current1.complete "not_in_inventory" current1.branches),
                  tick + 1)
              | some next_device =>
                walk W fuel pfx next_device vrf visited' current1 hr.2
                  branch_depth exclude_nodes (tick + 1)
            | nh1 :: nh2 :: nhrest =>
              if W.max_ecmp_branches ≤ branch_depth then
                some (pushPath hr.2 (.mk current1.hops current1.complete
                  "ecmp_depth_exceeded" current1.branches), tick + 1)
              else
                let next_hops := nh1 :: nh2 :: nhrest
                let selected := next_hops.take W.max_ecmp_branches
                let result2 := { hr.2 with ecmp_branches :=
                  hr.2.ecmp_branches ++
                    [⟨device_name, branch_depth, next_hops, selected⟩] }
                walkBranches
                  (fun nd cur res tk =>
                    walk W fuel pfx nd vrf visited' cur res (branch_depth + 1)
                      exclude_nodes tk)
                  W.inventory selected current1 result2 (tick + 1)

/-- Mirrors PathWalker._detect_origin_from_paths (path_walker.py 347-359). -/
def detect_origin_from_paths : List TracePath → Option String × Option String
  | [] => (none, none)
  | p :: rest =>
    match p.hops.getLast? with
    | none => detect_origin_from_paths rest
    | some last =>
      if p.end_reason == "origin" then (some "connected", some last.device)
      else if last.protocol == "static" then (some "static", some last.device)
      else if last.protocol == "bgp" then (some "ebgp", some last.device)
      else detect_origin_from_paths rest

/-- Mirrors PathWalker.trace (path_walker.py lines 134-147). -/
def trace (W : Walker) (fuel : Nat) (pfx start_device vrf : String)
    (exclude_nodes : List String) : Option TraceResult :=
  match walk W fuel pfx start_device vrf [] emptyPath
      { pfx := pfx, start := start_device } 0 exclude_nodes 0 with
  | none => none
  | some (r, _) =>
    let r1 := { r with total_time_ms := some W.clock_total }
    let d := detect_origin_from_paths r1.paths
    some { r1 with origin_type := d.1, origin_router := d.2 }

/-- The enumerate(zip(f, r)) mismatch loop of PathWalker._compare_paths
(path_walker.py lines 367-370), with i the index of the head of the lists. -/
def compareLoop : Nat → List String → List String → List Nat
  | _, [], _ => []
  | _, _ :: _, [] => []
  | i, fd :: fs, rd :: rs =>
    (if fd == rd then [] else [i]) ++ compareLoop (i + 1) fs rs

/-- Mirrors PathWalker._compare_paths (path_walker.py lines 361-373). -/
def comparePaths (forward reverse_r : TraceResult) : Bool × List Nat :=
  match forward.paths, reverse_r.paths with
  | [], _ => (false, [0])
  | _ :: _, [] => (false, [0])
  | fp :: _, rp :: _ =>
    let f := fp.hops.map (·.device)
    let r := (rp.hops.map (·.device)).reverse
    let divergence := compareLoop 0 f r ++
      (if f.length = r.length then [] else [Nat.min f.length r.length])
    (divergence.isEmpty, divergence)

/-- Mirrors PathWalker.trace_reverse (path_walker.py lines 149-158). -/
def trace_reverse (W : Walker) (fuel : Nat) (destination source vrf : String) :
    Option AsymmetryResult :=
  match trace W fuel destination source vrf [],
      trace W fuel source destination vrf [] with
  | some forward, some reverse_r =>
    let sd := comparePaths forward reverse_r
    some { forward_path := forward, reverse_path := reverse_r,
           symmetric := sd.1, divergence_points := sd.2 }
  | _, _ => none

/-- Mirrors PathWalker.simulate_failure (path_walker.py lines 160-182).
Python set comprehensions and sorted set difference are modelled with
dedup, filter and insertion sort. -/
def simulate_failure (W : Walker) (fuel : Nat)
    (source destination failed_node vrf : String) : Option FailureSimResult :=
  match trace W fuel destination source vrf [],
      trace W fuel destination source vrf [failed_node] with
  | some original, some failover =>
    let original_nodes :=
      ((original.paths.map fun p => p.hops.map (·.device)).flatten).dedup
    let fail_nodes :=
      ((failover.paths.map fun p => p.hops.map (·.device)).flatten).dedup
    let affected := List.insertionSort strLeP
      (original_nodes.filter fun d => !(fail_nodes.contains d))
    let impact :=
      if failover.paths.isEmpty then
        "No failover path after removing " ++ failed_node
      else if failover.paths.any (·.complete) then
        "Failover succeeded around " ++ failed_node
      else
        "Failover degraded after removing " ++ failed_node
    some { original := original, failover := failover,
           failed_node := failed_node, impact_summary := impact,
           affected_hops := affected,
           convergence_notes := "Control-plane reconvergence not simulated; data-driven path recomputation only." }
  | _, _ => none

/-- Mirrors the BGPRoute pydantic model of src/backend/models.py lines
206-214; the timestamp field (a datetime never read by lookup_routes) is
omitted. -/
structure BGPRoute where
  pfx : String
  next_hop : String
  as_path : List String := []
  communities : List String := []
  local_pref : Option Int := none
  origin : String := "unknown"
  source_router : String
deriving DecidableEq

/-- Mirrors CollectedDataLoader._to_route_entry (data_loader.py 86-97). -/
def toRouteEntry (route : BGPRoute) : RouteEntry :=
  .mk route.pfx "bgp" route.next_hop "" route.communities route.local_pref
    route.as_path none "" true [] "" none route.source_router

/-- Split a character list on a separator character, mirroring Python's
str.split(sep) for a one-character separator (always returns at least one
piece; an empty input gives one empty piece). -/
def splitOnChar (c : Char) : List Char → List (List Char)
  | [] => [[]]
  | x :: xs =>
    match splitOnChar c xs with
    | [] => if x == c then [[], []] else [[x]]
    | h :: t => if x == c then [] :: h :: t else (x :: h) :: t

/-- Decimal value of a digit string. -/
def digitsToNat (l : List Char) : Nat :=
  l.foldl (fun acc c => acc * 10 + (c.toNat - '0'.toNat)) 0

/-- True when the piece is a non-empty all-digit string. -/
def isDigits (l : List Char) : Bool := !l.isEmpty && l.all (·.isDigit)

/-- The ipaddress module rejects leading zeros in octets and mask lengths
(a lone 0 is fine). -/
def noLeadZero (l : List Char) : Bool :=
  match l with
  | '0' :: rest => rest.isEmpty
  | _ => true

def parseDecimal (l : List Char) : Option Nat :=
  if isDigits l && noLeadZero l then some (digitsToNat l) else none

def parseOctet (l : List Char) : Option Nat :=
  match parseDecimal l with
  | some v => if v ≤ 255 then some v else none
  | none => none

/-- Dotted-quad IPv4 address as a Nat below 2^32. -/
def parseIPv4 (l : List Char) : Option Nat :=
  match splitOnChar '.' l with
  | [a, b, c, d] =>
    match parseOctet a, parseOctet b, parseOctet c, parseOctet d with
    | some x, some y, some z, some w =>
        some (((x * 256 + y) * 256 + z) * 256 + w)
    | _, _, _, _ => none
  | _ => none

def parsePlen (l : List Char) : Option Nat :=
  match parseDecimal l with
  | some v => if v ≤ 32 then some v else none
  | none => none

/-- An IPv4 network: masked network address plus mask length. -/
structure IPNet where
  addr : Nat
  plen : Nat
deriving DecidableEq

/-- Keep the top plen bits of a 32-bit address. -/
def maskTo (addr plen : Nat) : Nat :=
  addr / 2 ^ (32 - plen) * 2 ^ (32 - plen)

/-- Models ipaddress.ip_network(s, strict=False) for IPv4 dotted-quad CIDR
strings (the format of this repository's prefixes); host bits are masked
off as strict=False does, a missing mask length means a host network.
IPv6 and the exotic alternative IPv4 spellings accepted by the ipaddress
module are out of scope of this model. -/
def ip_network (s : String) : Option IPNet :=
  match splitOnChar '/' s.data with
  | [a] => (parseIPv4 a).map fun x => ⟨maskTo x 32, 32⟩
  | [a, l] =>
    match parseIPv4 a, parsePlen l with
    | some x, some p => some ⟨maskTo x p, p⟩
    | _, _ => none
  | _ => none

/-- Models target.subnet_of(rp) for two same-version IPv4 networks. -/
def subnet_of (target rp : IPNet) : Bool :=
  decide (rp.plen ≤ target.plen) && (maskTo target.addr rp.plen == rp.addr)

/-- The sort key of the covering-match sort in lookup_routes: the mask
length of the route's prefix string.  The getD 0 default is unreachable on
the inputs the sort sees: every matched route sits under an index key that
parsed successfully, and reload keys the index by the route's own prefix
field (data_loader.py line 47). -/
def routePlen (r : BGPRoute) : Nat := ((ip_network r.pfx).map IPNet.plen).getD 0

/-- Longest-prefix-first relation used for
matches.sort(key=prefixlen, reverse=True) (data_loader.py line 83). -/
def plenDesc (a b : BGPRoute) : Prop := routePlen b ≤ routePlen a

instance : DecidableRel plenDesc := fun _ _ => Nat.decLe _ _

instance : IsTotal BGPRoute plenDesc := ⟨fun _ _ => Nat.le_total _ _⟩

instance : IsTrans BGPRoute plenDesc := ⟨fun _ _ _ hab hbc => le_trans hbc hab⟩

/-- Python membership test plus indexing on a host's prefix index
(an insertion-ordered dict, modelled as an assoc list). -/
def lookupAssoc (host_idx : List (String × List BGPRoute)) (k : String) :
    Option (List BGPRoute) :=
  (host_idx.find? fun kv => kv.1 == k).map (·.2)

/-- The matches.extend loop of lookup_routes (data_loader.py lines 73-81):
collect, in index order, every route stored under a covering prefix,
skipping keys that fail to parse. -/
def coveringMatches (host_idx : List (String × List BGPRoute))
    (target : IPNet) : List BGPRoute :=
  host_idx.foldl (fun acc kv =>
    match ip_network kv.1 with
    | none => acc
    | some rp =>
        if subnet_of target rp || target == rp then acc ++ kv.2 else acc) []

/-- Mirrors CollectedDataLoader.lookup_routes (data_loader.py lines 63-84)
for one host: host_idx is self._index[hostname] in insertion order.
Python's stable list.sort is modelled by the stable insertion sort of
Mathlib. -/
def lookup_routes (host_idx : List (String × List BGPRoute)) (pfx : String) :
    List RouteEntry :=
  match lookupAssoc host_idx pfx with
  | some rs => rs.map toRouteEntry
  | none =>
    match ip_network pfx with
    | none => []
    | some target =>
      (List.insertionSort plenDesc (coveringMatches host_idx target)).map
        toRouteEntry

/-- The lookup_routes sort key read off a produced RouteEntry. -/
def routePlenE (e : RouteEntry) : Nat :=
  ((ip_network e.pfx).map IPNet.plen).getD 0

/-- The contribution of one index bucket to the covering-match loop:
its routes when its key parses to a prefix covering target, else nothing. -/
def coveringOf (target : IPNet) (kv : String × List BGPRoute) :
    List BGPRoute :=
  match ip_network kv.1 with
  | none => []
  | some rp => if subnet_of target rp || target == rp then kv.2 else []

/-- Device record as consumed by _build_graph_engine_from_inventory
(main.py lines 78-97): the interfaces dict (name to IP) as an assoc list
in insertion order.  Other device attributes are not read there. -/
structure GDevice where
  interfaces : List (String × String) := []

/-- The ip_to_host dict of main.py lines 85-89: every non-empty interface
IP maps to its hostname, devices processed in inventory order, later
writes overwriting earlier ones. -/
def ipToHost (devs : List (String × GDevice)) (ip : String) : Option String :=
  devs.foldl (fun acc hd =>
    if ip != "" && (hd.2.interfaces.map Prod.snd).contains ip then some hd.1
    else acc) none

/-- One edge candidate of main.py lines 92-95: look the interface IP up in
ip_to_host and keep a truthy peer different from the owner. -/
def edgeOf (devs : List (String × GDevice)) (hostname ip : String) :
    Option (String × String) :=
  match ipToHost devs ip with
  | some peer => if peer != "" && peer != hostname then some (hostname, peer)
                 else none
  | none => none

/-- The edge list of the nx.DiGraph built by
_build_graph_engine_from_inventory (main.py lines 91-95); membership in
this list coincides with directed-edge membership in the DiGraph
(add_edge only deduplicates). -/
def graphEdges (devs : List (String × GDevice)) : List (String × String) :=
  devs.foldl (fun acc hd =>
    acc ++ (hd.2.interfaces.map Prod.snd).filterMap (edgeOf devs hd.1)) []

/-- Timing erasure on a hop: query_time_ms is its only timing field. -/
def eraseHop (h : HopResult) : HopResult := { h with query_time_ms := none }

mutual

/-- Timing erasure on a trace path (recursing into ECMP branches). -/
def erasePath : TracePath → TracePath
  | .mk hops c r brs => .mk (hops.map eraseHop) c r (erasePaths brs)

/-- Timing erasure on a list of trace paths. -/
def erasePaths : List TracePath → List TracePath
  | [] => []
  | p :: ps => erasePath p :: erasePaths ps

end

/-- Timing erasure on a trace result: drops total_time_ms and every hop's
query_time_ms, keeping all other fields. -/
def eraseResult (r : TraceResult) : TraceResult :=
  { r with paths := erasePaths r.paths, total_time_ms := none }

/-- Two walk outcomes agree up to timing: both have run out of fuel, or
both produced results that erase to the same value with equal tick
counters. -/
def optRel : Option (TraceResult × Nat) → Option (TraceResult × Nat) → Prop
  | none, none => True
  | some (r1, t1), some (r2, t2) => eraseResult r1 = eraseResult r2 ∧ t1 = t2
  | _, _ => False

/-! Concrete instances used by witnesses and counterexamples. -/

/-- A small concrete inventory: fw is a firewall, two resolvable IPs. -/
def demoInv : Inventory :=
  { get_device := fun d => if d == "a" then some { role := "edge" }
      else some { role := "" },
    is_firewall := fun d => d == "fw",
    resolve_ip := fun ip =>
      if ip == "10.0.0.2" then some "b"
      else if ip == "10.0.0.3" then some "c"
      else none,
    get_mpls_label_ops := fun _ _ => [],
    get_domain_crossing := fun _ _ => none }

/-- Active bgp entry towards 10.0.0.2. -/
def demoE1 : RouteEntry :=
  .mk "8.8.8.0/24" "bgp" "10.0.0.2" "" [] none [] none "" true [] "" none ""

/-- Connected (origin) entry. -/
def demoE2 : RouteEntry :=
  .mk "8.8.8.0/24" "connected" "" "et0" [] none [] none "" true [] "" none ""

/-- Active bgp entry towards 10.0.0.3. -/
def demoE3 : RouteEntry :=
  .mk "8.8.8.0/24" "bgp" "10.0.0.3" "" [] none [] none "" true [] "" none ""

/-- Active static entry towards 10.0.0.2. -/
def demoEs : RouteEntry :=
  .mk "8.8.8.0/24" "static" "10.0.0.2" "" [] none [] none "" true [] "" none ""

/-- Linear topology a to b; every other device raises in the collector. -/
def demoW : Walker :=
  { inventory := demoInv,
    collector_fn := fun d _ _ =>
      if d == "a" then .ok [demoE1]
      else if d == "b" then .ok [demoE2]
      else .error "boom" }

/-- The same topology with a hop budget of one. -/
def demoW2 : Walker := { demoW with max_hops := 1 }

/-- A firewall whose collector returns only a bgp entry. -/
def demoWfw : Walker :=
  { inventory := demoInv,
    collector_fn := fun d _ _ =>
      if d == "fw" then .ok [demoE1]
      else if d == "b" then .ok [demoE2]
      else .error "boom" }

/-- ECMP topology: a splits towards b and c, both of which originate. -/
def demoW3 : Walker :=
  { inventory := demoInv,
    collector_fn := fun d _ _ =>
      if d == "a" then .ok [demoE1, demoE3]
      else if d == "b" then .ok [demoE2]
      else if d == "c" then .ok [demoE2]
      else .error "boom" }

/-- The trace of the linear demo topology. -/
def demoRes : TraceResult :=
  (trace demoW 3 "8.8.8.0/24" "a" "" []).getD { pfx := "", start := "" }

/-- The trace of the hop-budget-one topology with b excluded. -/
def demoRes2 : TraceResult :=
  (trace demoW2 3 "8.8.8.0/24" "a" "" ["b"]).getD { pfx := "", start := "" }

/-- A cached route under 10.0.0.0/8. -/
def c5r8 : BGPRoute :=
  { pfx := "10.0.0.0/8", next_hop := "1.1.1.1", source_router := "x" }

/-- A cached route under 10.0.0.0/16. -/
def c5r16 : BGPRoute :=
  { pfx := "10.0.0.0/16", next_hop := "2.2.2.2", source_router := "y" }

/-- A host index holding two distinct covering prefixes of 10.0.1.0/24. -/
def c5idx : List (String × List BGPRoute) :=
  [("10.0.0.0/8", [c5r8]), ("10.0.0.0/16", [c5r16])]

/-- Two inventory devices configured with the same interface IP. -/
def c7devs : List (String × GDevice) :=
  [("a", ⟨[("eth0", "10.0.0.1")]⟩), ("b", ⟨[("eth0", "10.0.0.1")]⟩)]

/-- A bare hop for constructing comparison fixtures. -/
def c8hop (d : String) : HopResult := { device := d }

/-- A path visiting the given devices in order. -/
def c8path (ds : List String) : TracePath := .mk (ds.map c8hop) true "origin" []

/-- Forward fixture for path comparison. -/
def c8fwd : TraceResult := { pfx := "p", start := "a", paths := [c8path ["a", "b"]] }

/-- Reverse fixture for path comparison. -/
def c8rev : TraceResult := { pfx := "q", start := "b", paths := [c8path ["b", "g"]] }

/-! Shared helper lemmas. -/

theorem TracePath.hops_mk (h : List HopResult) (c : Bool) (r : String)
    (b : List TracePath) : (TracePath.mk h c r b).hops = h := rfl

theorem TracePath.complete_mk (h : List HopResult) (c : Bool) (r : String)
    (b : List TracePath) : (TracePath.mk h c r b).complete = c := rfl

theorem TracePath.end_reason_mk (h : List HopResult) (c : Bool) (r : String)
    (b : List TracePath) : (TracePath.mk h c r b).end_reason = r := rfl

theorem TracePath.branches_mk (h : List HopResult) (c : Bool) (r : String)
    (b : List TracePath) : (TracePath.mk h c r b).branches = b := rfl

theorem headD_mem {α : Type} (l : List α) (d : α) (h : l ≠ []) :
    l.headD d ∈ l := by
  cases l with
  | nil => exact absurd rfl h
  | cons a t => exact List.mem_cons_self a t

theorem selectActive_subset (l : List RouteEntry) : ∀ e ∈ selectActive l, e ∈ l := by
  intro e he
  unfold selectActive at he
  by_cases hemp : (l.filter (·.active)).isEmpty
  · rw [if_pos hemp] at he
    exact List.take_subset 1 l he
  · rw [if_neg hemp] at he
    exact List.mem_of_mem_filter he

theorem selectActive_ne_nil (l : List RouteEntry) (h : l ≠ []) :
    selectActive l ≠ [] := by
  unfold selectActive
  by_cases hemp : (l.filter (·.active)).isEmpty
  · rw [if_pos hemp]
    cases l with
    | nil => exact absurd rfl h
    | cons a t => simp [List.take]
  · rw [if_neg hemp]
    intro hnil
    rw [hnil] at hemp
    exact hemp rfl

theorem sorted_collect_next_hops (best : RouteEntry)
    (actives : List RouteEntry) :
    List.Sorted strLeP (collect_next_hops best actives) := by
  unfold collect_next_hops
  exact List.sorted_insertionSort _ _

theorem foldl_append_eq_flatten {α β : Type} (g : α → List β) :
    ∀ (l : List α) (init : List β),
      l.foldl (fun acc x => acc ++ g x) init = init ++ (l.map g).flatten
  | [], init => by simp
  | x :: t, init => by
    simp only [List.foldl_cons, List.map_cons, List.flatten_cons]
    rw [foldl_append_eq_flatten g t (init ++ g x), List.append_assoc]

theorem edgeOf_eq_some (devs : List (String × GDevice)) (hostname ip u v : String) :
    edgeOf devs hostname ip = some (u, v) ↔
      ipToHost devs ip = some v ∧ v ≠ "" ∧ v ≠ hostname ∧ hostname = u := by
  cases h : ipToHost devs ip with
  | none => simp [edgeOf, h]
  | some peer =>
    simp only [edgeOf, h]
    by_cases h1 : (peer != "" && peer != hostname) = true
    · simp only [if_pos h1, Option.some_inj, Prod.mk.injEq]
      rw [Bool.and_eq_true, bne_iff_ne, bne_iff_ne] at h1
      constructor
      · rintro ⟨hh, hp⟩
        subst hh
        subst hp
        exact ⟨rfl, h1.1, h1.2, rfl⟩
      · rintro ⟨hpv, _, _, hu⟩
        exact ⟨hu, hpv⟩
    · simp only [if_neg h1]
      rw [Bool.and_eq_true, bne_iff_ne, bne_iff_ne] at h1
      push_neg at h1
      constructor
      · intro hf
        exact absurd hf (by simp)
      · rintro ⟨hpv, hne, hnh, _⟩
        rw [Option.some_inj] at hpv
        subst hpv
        exact absurd (h1 hne) hnh

/-! Claim C6. -/

/-- C6: when the collector call raises at a device (and the frame is live:
the device is neither excluded nor already visited and the hop budget is
not exhausted), _walk does not propagate the exception: it returns
normally with the current path extended by a hop noting the failure,
published with end_reason unreachable; the previously accumulated result
state (including sibling ECMP paths already published) is preserved
verbatim underneath the appended path. -/
theorem C6_collector_failure_localised (W : Walker) (fuel : Nat)
    (pfx device_name vrf : String) (visited exclude_nodes : List String)
    (current : TracePath) (result : TraceResult) (branch_depth tick : Nat)
    (e : String)
    (hx : device_name ∉ exclude_nodes) (hv : device_name ∉ visited)
    (hh : current.hops.length < W.max_hops)
    (hc : W.collector_fn device_name pfx vrf = .error e) :
    walk W (fuel + 1) pfx device_name vrf visited current result branch_depth
        exclude_nodes tick
      = some (pushPath result (.mk
          (current.hops ++
            [unreachableHop device_name (roleOf W.inventory device_name) e])
          current.complete "unreachable" current.branches), tick) := by
  simp only [walk, if_neg hx, if_neg hv,
    if_neg (by omega : ¬ W.max_hops ≤ current.hops.length), hc]

/-- Witness for C6 on the concrete demo walker, whose collector raises at
device c. -/
theorem C6_witness :
    demoW.collector_fn "c" "8.8.8.0/24" "" = .error "boom" ∧
    walk demoW 1 "8.8.8.0/24" "c" "" [] emptyPath
        { pfx := "8.8.8.0/24", start := "c" } 0 [] 0
      = some (pushPath { pfx := "8.8.8.0/24", start := "c" }
          (.mk (emptyPath.hops ++
            [unreachableHop "c" (roleOf demoW.inventory "c") "boom"])
            emptyPath.complete "unreachable" emptyPath.branches), 0) :=
  ⟨rfl, C6_collector_failure_localised demoW 0 "8.8.8.0/24" "c" "" [] []
    emptyPath { pfx := "8.8.8.0/24", start := "c" } 0 0 "boom"
    (by decide) (by decide) (by decide) rfl⟩

/-! Claim C4. -/

/-- C4: at a live frame where the walker observes two or more ECMP
next-hops, if the branch depth is still below max_ecmp_branches the frame
appends exactly one ECMP-Branch record whose next_hops field is the full
observed (sorted) list and whose selected subset is its first
max_ecmp_branches elements, and then explores exactly the selected
next-hops (min of N and max_ecmp_branches many) as child branches; if the
branch depth has already reached max_ecmp_branches the path is published
with end_reason ecmp_depth_exceeded instead and no children are explored
(no ECMP-Branch record is appended and no recursion happens). -/
theorem C4_ecmp_branch_semantics (W : Walker) (fuel : Nat)
    (pfx device_name vrf : String) (visited exclude_nodes : List String)
    (current : TracePath) (result : TraceResult) (branch_depth tick : Nat)
    (entries : List RouteEntry) (nh1 nh2 : String) (nhrest : List String)
    (hx : device_name ∉ exclude_nodes) (hv : device_name ∉ visited)
    (hh : current.hops.length < W.max_hops)
    (hc : W.collector_fn device_name pfx vrf = .ok entries)
    (hne : entries.isEmpty = false)
    (hb : ((bestOf (W.inventory.is_firewall device_name) entries).protocol
            == "direct" ||
          (bestOf (W.inventory.is_firewall device_name) entries).protocol
            == "connected" ||
          (bestOf (W.inventory.is_firewall device_name) entries).protocol
            == "local") = false)
    (hnh : collect_next_hops (bestOf (W.inventory.is_firewall device_name) entries)
        (activesOf (W.inventory.is_firewall device_name) entries)
        = nh1 :: nh2 :: nhrest) :
    (branch_depth < W.max_ecmp_branches →
      walk W (fuel + 1) pfx device_name vrf visited current result
          branch_depth exclude_nodes tick
        = walkBranches
            (fun nd cur res tk =>
              walk W fuel pfx nd vrf (device_name :: visited) cur res
                (branch_depth + 1) exclude_nodes tk)
            W.inventory ((nh1 :: nh2 :: nhrest).take W.max_ecmp_branches)
            (.mk (current.hops ++
              [(frameStep W device_name (roleOf W.inventory device_name)
                  entries result tick).1])
              current.complete current.end_reason current.branches)
            { (frameStep W device_name (roleOf W.inventory device_name)
                  entries result tick).2 with
              ecmp_branches :=
                (frameStep W device_name (roleOf W.inventory device_name)
                    entries result tick).2.ecmp_branches ++
                  [⟨device_name, branch_depth, nh1 :: nh2 :: nhrest,
                    (nh1 :: nh2 :: nhrest).take W.max_ecmp_branches⟩] }
            (tick + 1)) ∧
    (W.max_ecmp_branches ≤ branch_depth →
      walk W (fuel + 1) pfx device_name vrf visited current result
          branch_depth exclude_nodes tick
        = some (pushPath
            (frameStep W device_name (roleOf W.inventory device_name)
              entries result tick).2
            (.mk (current.hops ++
              [(frameStep W device_name (roleOf W.inventory device_name)
                  entries result tick).1])
              current.complete "ecmp_depth_exceeded" current.branches),
            tick + 1)) ∧
    ((nh1 :: nh2 :: nhrest).take W.max_ecmp_branches).length
      = min (nh1 :: nh2 :: nhrest).length W.max_ecmp_branches ∧
    List.Sorted strLeP (nh1 :: nh2 :: nhrest) := by
  refine ⟨?_, ?_, ?_, ?_⟩
  · intro hdep
    simp only [walk, if_neg hx, if_neg hv,
      if_neg (by omega : ¬ W.max_hops ≤ current.hops.length), hc,
      hne, Bool.false_eq_true, if_false, hb, hnh,
      if_neg (by omega : ¬ W.max_ecmp_branches ≤ branch_depth)]
  · intro hdep
    simp only [walk, if_neg hx, if_neg hv,
      if_neg (by omega : ¬ W.max_hops ≤ current.hops.length), hc,
      hne, Bool.false_eq_true, if_false, hb, hnh, if_pos hdep]
    simp only [TracePath.hops_mk, TracePath.complete_mk, TracePath.branches_mk]
  · rw [List.length_take, Nat.min_comm]
  · rw [← hnh]
    exact sorted_collect_next_hops _ _

/-- Witness for C4 at the concrete ECMP frame of demoW3: device a observes
the two next-hops 10.0.0.2 and 10.0.0.3. -/
theorem C4_witness :
    (0 < demoW3.max_ecmp_branches) ∧
    collect_next_hops (bestOf (demoW3.inventory.is_firewall "a") [demoE1, demoE3])
        (activesOf (demoW3.inventory.is_firewall "a") [demoE1, demoE3])
      = ["10.0.0.2", "10.0.0.3"] ∧
    ((["10.0.0.2", "10.0.0.3"] : List String).take demoW3.max_ecmp_branches).length
      = min (["10.0.0.2", "10.0.0.3"] : List String).length demoW3.max_ecmp_branches ∧
    List.Sorted strLeP (["10.0.0.2", "10.0.0.3"] : List String) := by
  have hnh : collect_next_hops
      (bestOf (demoW3.inventory.is_firewall "a") [demoE1, demoE3])
      (activesOf (demoW3.inventory.is_firewall "a") [demoE1, demoE3])
      = ["10.0.0.2", "10.0.0.3"] := by decide
  have T := C4_ecmp_branch_semantics demoW3 1 "8.8.8.0/24" "a" "" [] []
    emptyPath { pfx := "8.8.8.0/24", start := "a" } 0 0 [demoE1, demoE3]
    "10.0.0.2" "10.0.0.3" []
    (by decide) (by decide) (by decide) rfl rfl rfl hnh
  exact ⟨by decide, hnh, T.2.2.1, T.2.2.2⟩

/-! Claim C3. -/

/-- C3 counterexample: on the demo firewall whose collector returns only a
bgp entry, the walker forwards using that bgp entry — the published hop at
the firewall has protocol bgp, contradicting the claim that an entry
selected as best at a firewall always has protocol static or policy. -/
theorem C3_counterexample :
    demoWfw.inventory.is_firewall "fw" = true ∧
    demoWfw.collector_fn "fw" "8.8.8.0/24" "" = .ok [demoE1] ∧
    (trace demoWfw 3 "8.8.8.0/24" "fw" "" []).map
        (fun R => R.paths.map fun p => p.hops.map (·.protocol))
      = some [["bgp", "connected"]] ∧
    ¬ ("bgp" = "static" ∨ "bgp" = "policy") :=
  ⟨rfl, rfl, rfl, by decide⟩

/-- C3 amended: the firewall restriction holds only conditionally.  When
the entry list at a firewall contains at least one static or policy entry,
every entry the walker considers for forwarding there (the selected active
set) and in particular the best entry have protocol static or policy;
when no such entry exists the code falls back to the unfiltered list
(path_walker.py line 247), so a bgp entry can be selected. -/
theorem C3_firewall_restriction_amended (entries : List RouteEntry)
    (h : ∃ e ∈ entries, e.protocol = "static" ∨ e.protocol = "policy") :
    (∀ e ∈ activesOf true entries,
      e.protocol = "static" ∨ e.protocol = "policy") ∧
    ((bestOf true entries).protocol = "static" ∨
      (bestOf true entries).protocol = "policy") := by
  obtain ⟨e0, he0, hp0⟩ := h
  have hfw : e0 ∈ entries.filter
      (fun e => e.protocol == "static" || e.protocol == "policy") := by
    rw [List.mem_filter]
    refine ⟨he0, ?_⟩
    rcases hp0 with h1 | h1 <;> simp [h1]
  have hfwne : ¬ (entries.filter
      (fun e => e.protocol == "static" || e.protocol == "policy")).isEmpty
        = true := by
    intro hemp
    rw [List.isEmpty_iff] at hemp
    rw [hemp] at hfw
    exact absurd hfw (List.not_mem_nil _)
  have hfilter : fwFilter true entries = entries.filter
      (fun e => e.protocol == "static" || e.protocol == "policy") := by
    unfold fwFilter
    simp only [if_pos rfl, if_neg hfwne, if_true]
  have hmem : ∀ e ∈ activesOf true entries,
      e.protocol = "static" ∨ e.protocol = "policy" := by
    intro e he
    have := selectActive_subset _ e (by rw [activesOf, hfilter] at he; exact he)
    rw [List.mem_filter] at this
    have hb := this.2
    rw [Bool.or_eq_true, beq_iff_eq, beq_iff_eq] at hb
    exact hb
  refine ⟨hmem, ?_⟩
  apply hmem
  apply headD_mem
  apply selectActive_ne_nil
  rw [hfilter]
  exact List.ne_nil_of_mem hfw

/-- Witness for the amended C3 on a concrete mixed static/bgp entry list. -/
theorem C3_witness :
    (∃ e ∈ [demoEs, demoE1],
      e.protocol = "static" ∨ e.protocol = "policy") ∧
    ((bestOf true [demoEs, demoE1]).protocol = "static" ∨
      (bestOf true [demoEs, demoE1]).protocol = "policy") :=
  ⟨⟨demoEs, List.mem_cons_self _ _, Or.inl rfl⟩,
   (C3_firewall_restriction_amended [demoEs, demoE1]
     ⟨demoEs, List.mem_cons_self _ _, Or.inl rfl⟩).2⟩

/-! Claim C7. -/

/-- C7 counterexample: two devices share the interface IP 10.0.0.1.  The
inventory-derived graph contains the directed edge a to b but not its
reverse, so the graph the Blast-Radius engine operates on is not
undirected. -/
theorem C7_counterexample :
    (("a", "b") ∈ graphEdges c7devs) ∧ ¬ (("b", "a") ∈ graphEdges c7devs) := by
  decide

/-- C7 amended: the graph built from the inventory is directed.  The edge
u to v is present exactly when v is non-empty and different from u, some
inventory entry for u carries an interface whose IP the ip_to_host index
resolves to v (the last inventory device owning that IP).  Such an edge
does not imply the reverse edge. -/
theorem C7_directed_edge_characterisation (devs : List (String × GDevice))
    (u v : String) :
    (u, v) ∈ graphEdges devs ↔
      v ≠ "" ∧ v ≠ u ∧ ∃ d, (u, d) ∈ devs ∧
        ∃ pr ∈ d.interfaces, ipToHost devs pr.2 = some v := by
  unfold graphEdges
  rw [foldl_append_eq_flatten
    (fun hd : String × GDevice =>
      (hd.2.interfaces.map Prod.snd).filterMap (edgeOf devs hd.1))
    devs []]
  rw [List.nil_append]
  constructor
  · intro hmemb
    rw [List.mem_flatten] at hmemb
    obtain ⟨l, hl, hml⟩ := hmemb
    rw [List.mem_map] at hl
    obtain ⟨hd, hhd, rfl⟩ := hl
    rw [List.mem_filterMap] at hml
    obtain ⟨ip, hip, hedge⟩ := hml
    rw [edgeOf_eq_some] at hedge
    obtain ⟨hres, hvne, hvnh, hu⟩ := hedge
    rw [List.mem_map] at hip
    obtain ⟨pr, hpr, rfl⟩ := hip
    refine ⟨hvne, by rw [← hu]; exact hvnh, hd.2, ?_, pr, hpr, hres⟩
    rw [← hu]
    exact hhd
  · rintro ⟨hvne, hvnu, d, hd, pr, hpr, hres⟩
    rw [List.mem_flatten]
    refine ⟨(d.interfaces.map Prod.snd).filterMap (edgeOf devs u), ?_, ?_⟩
    · rw [List.mem_map]
      exact ⟨(u, d), hd, rfl⟩
    · rw [List.mem_filterMap]
      refine ⟨pr.2, List.mem_map_of_mem Prod.snd hpr, ?_⟩
      rw [edgeOf_eq_some]
      exact ⟨hres, hvne, hvnu, rfl⟩

/-! Claim C5. -/

theorem coveringMatches_eq_flatten (host_idx : List (String × List BGPRoute))
    (target : IPNet) :
    coveringMatches host_idx target
      = (host_idx.map (coveringOf target)).flatten := by
  unfold coveringMatches
  have hfn : (fun (acc : List BGPRoute) (kv : String × List BGPRoute) =>
      match ip_network kv.1 with
      | none => acc
      | some rp =>
          if subnet_of target rp || target == rp then acc ++ kv.2 else acc)
    = fun acc kv => acc ++ coveringOf target kv := by
    funext acc kv
    unfold coveringOf
    cases ip_network kv.1 with
    | none => simp
    | some rp =>
      by_cases hcov : (subnet_of target rp || target == rp) = true
      · simp [hcov]
      · simp [hcov]
  rw [hfn, foldl_append_eq_flatten (coveringOf target) host_idx [],
    List.nil_append]

theorem mem_coveringOf (target : IPNet) (kv : String × List BGPRoute)
    (r : BGPRoute) :
    r ∈ coveringOf target kv ↔
      ∃ rp, ip_network kv.1 = some rp ∧
        (subnet_of target rp || target == rp) = true ∧ r ∈ kv.2 := by
  cases h : ip_network kv.1 with
  | none => simp [coveringOf, h]
  | some rp =>
    simp only [coveringOf, h, Option.some_inj]
    by_cases hcov : (subnet_of target rp || target == rp) = true
    · rw [if_pos hcov]
      constructor
      · intro hr
        exact ⟨rp, rfl, hcov, hr⟩
      · rintro ⟨rp', _, _, hr⟩
        exact hr
    · rw [if_neg hcov]
      constructor
      · intro hr
        exact absurd hr (List.not_mem_nil r)
      · rintro ⟨rp', hrp', hcov', _⟩
        subst hrp'
        exact absurd hcov' hcov

theorem routePlenE_toRouteEntry (r : BGPRoute) :
    routePlenE (toRouteEntry r) = routePlen r := rfl

/-- C5 amended: when the exact prefix is absent from the cache index,
lookup_routes returns the entries of EVERY covering cached prefix (not
only the longest), ordered by decreasing mask length — so the longest
covering match's entries come first but entries of shorter covering
prefixes follow; a syntactically invalid prefix (that is not itself an
index key) yields the empty list rather than an error. -/
theorem C5_lookup_amended (host_idx : List (String × List BGPRoute))
    (pfx : String) (hmiss : lookupAssoc host_idx pfx = none) :
    (ip_network pfx = none → lookup_routes host_idx pfx = []) ∧
    (∀ target, ip_network pfx = some target →
      ((∀ e ∈ lookup_routes host_idx pfx, ∃ r, toRouteEntry r = e ∧
          ∃ kv ∈ host_idx, r ∈ kv.2 ∧ ∃ rp, ip_network kv.1 = some rp ∧
            (subnet_of target rp || target == rp) = true) ∧
       (∀ kv ∈ host_idx, ∀ rp, ip_network kv.1 = some rp →
          (subnet_of target rp || target == rp) = true →
          ∀ r ∈ kv.2, toRouteEntry r ∈ lookup_routes host_idx pfx) ∧
       List.Sorted (fun e1 e2 => routePlenE e2 ≤ routePlenE e1)
         (lookup_routes host_idx pfx))) := by
  constructor
  · intro hp
    unfold lookup_routes
    rw [hmiss, hp]
  · intro target hp
    have hlr : lookup_routes host_idx pfx
        = (List.insertionSort plenDesc (coveringMatches host_idx target)).map
            toRouteEntry := by
      unfold lookup_routes
      rw [hmiss, hp]
    have hperm : ∀ r : BGPRoute,
        r ∈ List.insertionSort plenDesc (coveringMatches host_idx target) ↔
          r ∈ coveringMatches host_idx target :=
      fun r => (List.perm_insertionSort plenDesc _).mem_iff
    refine ⟨?_, ?_, ?_⟩
    · intro e he
      rw [hlr, List.mem_map] at he
      obtain ⟨r, hr, rfl⟩ := he
      rw [hperm, coveringMatches_eq_flatten, List.mem_flatten] at hr
      obtain ⟨l, hl, hml⟩ := hr
      rw [List.mem_map] at hl
      obtain ⟨kv, hkv, rfl⟩ := hl
      rw [mem_coveringOf] at hml
      obtain ⟨rp, hrp, hcov, hr2⟩ := hml
      exact ⟨r, rfl, kv, hkv, hr2, rp, hrp, hcov⟩
    · intro kv hkv rp hrp hcov r hr
      rw [hlr, List.mem_map]
      refine ⟨r, ?_, rfl⟩
      rw [hperm, coveringMatches_eq_flatten, List.mem_flatten]
      refine ⟨coveringOf target kv, List.mem_map_of_mem _ hkv, ?_⟩
      rw [mem_coveringOf]
      exact ⟨rp, hrp, hcov, hr⟩
    · rw [hlr]
      have hs : List.Sorted plenDesc
          (List.insertionSort plenDesc (coveringMatches host_idx target)) :=
        List.sorted_insertionSort plenDesc _
      exact List.Pairwise.map toRouteEntry
        (fun a b hab => by
          rw [routePlenE_toRouteEntry, routePlenE_toRouteEntry]
          exact hab) hs

/-- C5 counterexample: the prefix 10.0.1.0/24 is covered by both cached
prefixes 10.0.0.0/8 and 10.0.0.0/16.  lookup_routes returns the entries of
both covering prefixes (longest first), not exactly the entries of the
longest covering prefix 10.0.0.0/16, which has a single entry. -/
theorem C5_counterexample :
    lookupAssoc c5idx "10.0.1.0/24" = none ∧
    lookup_routes c5idx "10.0.1.0/24"
      = [toRouteEntry c5r16, toRouteEntry c5r8] ∧
    lookup_routes c5idx "10.0.1.0/24" ≠ [toRouteEntry c5r16] :=
  ⟨rfl, rfl, fun h => absurd (congrArg List.length h) (by decide)⟩

/-- Witness for the amended C5 on the concrete two-bucket cache index. -/
theorem C5_witness :
    lookupAssoc c5idx "10.0.1.0/24" = none ∧
    ip_network "10.0.1.0/24" = some ⟨167772416, 24⟩ ∧
    List.Sorted (fun e1 e2 => routePlenE e2 ≤ routePlenE e1)
      (lookup_routes c5idx "10.0.1.0/24") :=
  ⟨rfl, rfl,
   ((C5_lookup_amended c5idx "10.0.1.0/24" rfl).2 ⟨167772416, 24⟩ rfl).2.2⟩

/-! Claim C8. -/

theorem compareLoop_mem : ∀ (f r : List String) (k i : Nat),
    i ∈ compareLoop k f r ↔
      ∃ j, i = k + j ∧ j < min f.length r.length ∧ f[j]? ≠ r[j]?
  | [], r, k, i => by simp [compareLoop]
  | _ :: _, [], k, i => by simp [compareLoop]
  | fd :: fs, rd :: rs, k, i => by
    simp only [compareLoop, List.mem_append]
    constructor
    · intro hi
      rcases hi with hi | hi
      · by_cases h : fd = rd
        · simp [h] at hi
        · simp [h] at hi
          refine ⟨0, by omega, by simp [Nat.lt_min], ?_⟩
          simp [hi, h]
      · obtain ⟨j', hij, hjlt, hne⟩ := (compareLoop_mem fs rs (k + 1) i).mp hi
        refine ⟨j' + 1, by omega, ?_, by simpa⟩
        rw [Nat.lt_min] at hjlt ⊢
        simp only [List.length_cons]
        omega
    · rintro ⟨j, hij, hjlt, hne⟩
      cases j with
      | zero =>
        left
        have h : ¬ fd = rd := by simpa using hne
        simp [h, hij]
      | succ j' =>
        right
        refine (compareLoop_mem fs rs (k + 1) i).mpr ⟨j', by omega, ?_, ?_⟩
        · rw [Nat.lt_min] at hjlt ⊢
          simp only [List.length_cons] at hjlt
          omega
        · simpa using hne

/-- C8: _compare_paths (as wired into trace_reverse) compares the device
sequence of the first forward Trace-Path against the reversed device
sequence of the first reverse Trace-Path: the divergence list contains
exactly the common-length indices where the two sequences differ, plus the
shorter length as a final point when the lengths differ; symmetric holds
exactly when the divergence list is empty; and trace_reverse publishes
exactly this comparison in its AsymmetryResult. -/
theorem C8_compare_paths_characterised (forward reverse_r : TraceResult)
    (fp rp : TracePath) (ft rt : List TracePath)
    (hf : forward.paths = fp :: ft) (hr : reverse_r.paths = rp :: rt) :
    ((comparePaths forward reverse_r).1 = true ↔
      (comparePaths forward reverse_r).2 = []) ∧
    (∀ i, i ∈ (comparePaths forward reverse_r).2 ↔
      ((i < min (fp.hops.map (·.device)).length
            ((rp.hops.map (·.device)).reverse).length ∧
          (fp.hops.map (·.device))[i]?
            ≠ ((rp.hops.map (·.device)).reverse)[i]?) ∨
       (i = min (fp.hops.map (·.device)).length
            ((rp.hops.map (·.device)).reverse).length ∧
          (fp.hops.map (·.device)).length
            ≠ ((rp.hops.map (·.device)).reverse).length))) ∧
    (∀ (W : Walker) (fuel : Nat) (dst src vrf : String) (A : AsymmetryResult),
      trace_reverse W fuel dst src vrf = some A →
      A.symmetric = (comparePaths A.forward_path A.reverse_path).1 ∧
      A.divergence_points = (comparePaths A.forward_path A.reverse_path).2) := by
  have hcp : comparePaths forward reverse_r =
      (((compareLoop 0 (fp.hops.map (·.device))
          ((rp.hops.map (·.device)).reverse) ++
        (if (fp.hops.map (·.device)).length
            = ((rp.hops.map (·.device)).reverse).length then []
         else [Nat.min (fp.hops.map (·.device)).length
            ((rp.hops.map (·.device)).reverse).length]))).isEmpty,
       compareLoop 0 (fp.hops.map (·.device))
          ((rp.hops.map (·.device)).reverse) ++
        (if (fp.hops.map (·.device)).length
            = ((rp.hops.map (·.device)).reverse).length then []
         else [Nat.min (fp.hops.map (·.device)).length
            ((rp.hops.map (·.device)).reverse).length])) := by
    simp only [comparePaths, hf, hr]
  refine ⟨?_, ?_, ?_⟩
  · rw [hcp]
    exact List.isEmpty_iff
  · intro i
    rw [hcp]
    simp only [List.mem_append]
    constructor
    · intro hi
      rcases hi with hi | hi
      · obtain ⟨j, hij, hjlt, hne⟩ :=
          (compareLoop_mem _ _ 0 i).mp hi
        left
        rw [Nat.zero_add] at hij
        subst hij
        exact ⟨hjlt, hne⟩
      · by_cases h : (fp.hops.map (·.device)).length
            = ((rp.hops.map (·.device)).reverse).length
        · rw [if_pos h] at hi
          exact absurd hi (List.not_mem_nil i)
        · rw [if_neg h] at hi
          rw [List.mem_singleton] at hi
          exact Or.inr ⟨hi, h⟩
    · intro hi
      rcases hi with ⟨hlt, hne⟩ | ⟨heq, hne⟩
      · left
        exact (compareLoop_mem _ _ 0 i).mpr ⟨i, by omega, hlt, hne⟩
      · right
        rw [if_neg hne, List.mem_singleton]
        exact heq
  · intro W fuel dst src vrf A h
    unfold trace_reverse at h
    cases h1 : trace W fuel dst src vrf [] with
    | none => rw [h1] at h; exact absurd h (by simp)
    | some fwd =>
      cases h2 : trace W fuel src dst vrf [] with
      | none => rw [h1, h2] at h; exact absurd h (by simp)
      | some rev =>
        rw [h1, h2] at h
        rw [Option.some_inj] at h
        subst h
        exact ⟨rfl, rfl⟩

/-- Witness for C8 on concrete forward/reverse fixtures. -/
theorem C8_witness :
    c8fwd.paths = c8path ["a", "b"] :: [] ∧
    ((comparePaths c8fwd c8rev).1 = true ↔
      (comparePaths c8fwd c8rev).2 = []) :=
  ⟨rfl, (C8_compare_paths_characterised c8fwd c8rev (c8path ["a", "b"])
    (c8path ["b", "g"]) [] [] rfl rfl).1⟩


/-! Claims C1, C2 and C10: invariants of the walk recursion. -/
theorem paths_inv_push (Q : TracePath → Prop) (res : TraceResult)
    (p : TracePath) (hres : ∀ q ∈ res.paths, Q q) (hp : Q p) :
    ∀ q ∈ (pushPath res p).paths, Q q := by
  intro q hq
  unfold pushPath at hq
  simp only [List.mem_append, List.mem_singleton] at hq
  rcases hq with hq | rfl
  · exact hres q hq
  · exact hp

theorem applyCrossing_paths_eq (inv : Inventory) (d : String) (b : RouteEntry)
    (h : HopResult) (res : TraceResult) :
    (applyCrossing inv d b h res).2.paths = res.paths := by
  unfold applyCrossing
  cases inv.get_domain_crossing d b.next_hop <;> rfl

theorem frameStep_paths_eq (W : Walker) (d role : String)
    (entries : List RouteEntry) (res : TraceResult) (tk : Nat) :
    (frameStep W d role entries res tk).2.paths = res.paths :=
  applyCrossing_paths_eq _ _ _ _ _

theorem walkBranches_inv (Q : TracePath → Prop)
    (recFn : String → TracePath → TraceResult → Nat → Option (TraceResult × Nat))
    (inv : Inventory) (hops0 : List HopResult)
    (hrec : ∀ nd res tk r t, (∀ p ∈ res.paths, Q p) →
       recFn nd (TracePath.mk hops0 false "" []) res tk = some (r, t) →
       ∀ p ∈ r.paths, Q p)
    (hstub : ∀ nh : String, Q (TracePath.mk
      (hops0 ++ [stubHop ("unknown (" ++ nh ++ ")")
        ("Next-hop " ++ nh ++ " not in inventory")])
      false "not_in_inventory" [])) :
    ∀ (nhs : List String) (current : TracePath) (res : TraceResult)
      (tk : Nat) (r : TraceResult) (t : Nat),
      current.hops = hops0 →
      (∀ p ∈ res.paths, Q p) →
      walkBranches recFn inv nhs current res tk = some (r, t) →
      ∀ p ∈ r.paths, Q p
  | [], current, res, tk, r, t => by
    intro hhops hres hw
    simp only [walkBranches, Option.some_inj] at hw
    cases hw
    exact hres
  | nh :: rest, current, res, tk, r, t => by
    intro hhops hres hw
    simp only [walkBranches] at hw
    split at hw
    next hip =>
      refine walkBranches_inv Q recFn inv hops0 hrec hstub rest _ _ _ r t
        (by simp [TracePath.hops_mk, hhops]) ?_ hw
      refine paths_inv_push Q res _ hres ?_
      simp only [TracePath.hops_mk, TracePath.complete_mk, TracePath.branches_mk,
        hhops]
      exact hstub nh
    next nd hip =>
      split at hw
      next hrec2 => exact Option.noConfusion hw
      next rt2 t2 hrec2 =>
        have hQ := hrec nd res tk rt2 t2 hres (by rw [← hhops]; exact hrec2)
        exact walkBranches_inv Q recFn inv hops0 hrec hstub rest _ _ _ r t
          (by simp [TracePath.hops_mk, hhops]) hQ hw

theorem complete_iff_of_stub (hops : List HopResult) (reason : String)
    (branches : List TracePath) (hr : reason ≠ "origin") :
    (TracePath.mk hops false reason branches).complete = true ↔
      (TracePath.mk hops false reason branches).end_reason = "origin" := by
  simp only [TracePath.complete_mk, TracePath.end_reason_mk]
  constructor
  · intro h
    exact absurd h (by simp)
  · intro h
    exact absurd h hr

theorem walk_complete_iff_inv (W : Walker) :
    ∀ (fuel : Nat) (pfx device_name vrf : String)
      (visited exclude_nodes : List String) (current : TracePath)
      (result : TraceResult) (branch_depth tick : Nat) (r : TraceResult)
      (t : Nat),
      current.complete = false →
      (∀ p ∈ result.paths, p.complete = true ↔ p.end_reason = "origin") →
      walk W fuel pfx device_name vrf visited current result branch_depth
        exclude_nodes tick = some (r, t) →
      ∀ p ∈ r.paths, p.complete = true ↔ p.end_reason = "origin"
  | 0, pfx, dn, vrf, vis, ex, cur, res, bd, tk, r, t => by
    intro _ _ hw
    exact Option.noConfusion hw
  | fuel + 1, pfx, dn, vrf, vis, ex, cur, res, bd, tk, r, t => by
    intro hcur hres hw
    simp only [walk] at hw
    split at hw
    · -- excluded
      rw [Option.some_inj, Prod.mk.injEq] at hw
      obtain ⟨hw1, _⟩ := hw
      subst hw1
      exact paths_inv_push _ res _ hres (complete_iff_of_stub _ _ _ (by decide))
    split at hw
    · -- loop
      rw [Option.some_inj, Prod.mk.injEq] at hw
      obtain ⟨hw1, _⟩ := hw
      subst hw1
      exact paths_inv_push _ res _ hres (complete_iff_of_stub _ _ _ (by decide))
    split at hw
    · -- max_hops
      rw [Option.some_inj, Prod.mk.injEq] at hw
      obtain ⟨hw1, _⟩ := hw
      subst hw1
      exact paths_inv_push _ res _ hres (complete_iff_of_stub _ _ _ (by decide))
    -- collector call
    split at hw
    · -- collector error
      rw [Option.some_inj, Prod.mk.injEq] at hw
      obtain ⟨hw1, _⟩ := hw
      subst hw1
      refine paths_inv_push _ res _ hres ?_
      rw [hcur]
      exact complete_iff_of_stub _ _ _ (by decide)
    · -- collector ok
      split at hw
      · -- no entries
        rw [Option.some_inj, Prod.mk.injEq] at hw
        obtain ⟨hw1, _⟩ := hw
        subst hw1
        refine paths_inv_push _ res _ hres ?_
        rw [hcur]
        exact complete_iff_of_stub _ _ _ (by decide)
      · split at hw
        · -- connected origin
          rw [Option.some_inj, Prod.mk.injEq] at hw
          obtain ⟨hw1, _⟩ := hw
          subst hw1
          refine paths_inv_push _ res _ hres ?_
          simp only [TracePath.complete_mk, TracePath.end_reason_mk]
        · -- forwarding frame
          split at hw
          · -- no next hops: blackhole
            rw [Option.some_inj, Prod.mk.injEq] at hw
            obtain ⟨hw1, _⟩ := hw
            subst hw1
            refine paths_inv_push _ _ _ ?_ ?_
            · intro q hq
              rw [frameStep_paths_eq] at hq
              exact hres q hq
            · simp only [TracePath.hops_mk, TracePath.complete_mk,
                TracePath.branches_mk]
              rw [hcur]
              exact complete_iff_of_stub _ _ _ (by decide)
          · -- single next hop
            split at hw
            · -- unknown next hop
              rw [Option.some_inj, Prod.mk.injEq] at hw
              obtain ⟨hw1, _⟩ := hw
              subst hw1
              refine paths_inv_push _ _ _ ?_ ?_
              · intro q hq
                rw [frameStep_paths_eq] at hq
                exact hres q hq
              · simp only [TracePath.hops_mk, TracePath.complete_mk,
                  TracePath.branches_mk]
                rw [hcur]
                exact complete_iff_of_stub _ _ _ (by decide)
            · -- recurse
              refine walk_complete_iff_inv W fuel pfx _ vrf _ ex _ _ bd _ r t
                (by simp [TracePath.complete_mk, hcur]) ?_ hw
              intro q hq
              rw [frameStep_paths_eq] at hq
              exact hres q hq
          · -- two or more next hops
            split at hw
            · -- cap reached
              rw [Option.some_inj, Prod.mk.injEq] at hw
              obtain ⟨hw1, _⟩ := hw
              subst hw1
              refine paths_inv_push _ _ _ ?_ ?_
              · intro q hq
                rw [frameStep_paths_eq] at hq
                exact hres q hq
              · simp only [TracePath.hops_mk, TracePath.complete_mk,
                  TracePath.branches_mk]
                rw [hcur]
                exact complete_iff_of_stub _ _ _ (by decide)
            · -- branch out
              refine walkBranches_inv _ _ W.inventory
                (TracePath.mk _ cur.complete cur.end_reason cur.branches).hops
                ?_ ?_ _ _ _ _ r t rfl ?_ hw
              · intro nd res2 tk2 r2 t2 hres2 hw2
                exact walk_complete_iff_inv W fuel pfx nd vrf _ ex _ _ (bd + 1)
                  tk2 r2 t2 (by simp [TracePath.complete_mk]) hres2 hw2
              · intro nh
                exact complete_iff_of_stub _ _ _ (by decide)
              · intro q hq
                simp only [TraceResult.paths] at hq
                rw [frameStep_paths_eq] at hq
                exact hres q hq

/-- C1: for every TraceResult returned by trace and every published
TracePath p in it, p.complete holds exactly when p.end_reason is origin:
the connected-origin shortcut is the only publish site setting
complete = true, and it sets end_reason = origin. -/
theorem C1_complete_iff_origin (W : Walker) (fuel : Nat)
    (pfx start_device vrf : String) (exclude_nodes : List String)
    (R : TraceResult)
    (h : trace W fuel pfx start_device vrf exclude_nodes = some R) :
    ∀ p ∈ R.paths, p.complete = true ↔ p.end_reason = "origin" := by
  unfold trace at h
  split at h
  · exact Option.noConfusion h
  next rt t hw =>
    rw [Option.some_inj] at h
    subst h
    intro p hp
    exact walk_complete_iff_inv W fuel pfx start_device vrf [] exclude_nodes
      emptyPath { pfx := pfx, start := start_device } 0 0 rt t rfl
      (fun q hq => absurd hq (List.not_mem_nil q)) hw p hp

theorem C1_witness :
    trace demoW 3 "8.8.8.0/24" "a" "" [] = some demoRes ∧
    ∀ p ∈ demoRes.paths, p.complete = true ↔ p.end_reason = "origin" :=
  ⟨by rfl, C1_complete_iff_origin demoW 3 "8.8.8.0/24" "a" "" [] demoRes (by rfl)⟩

theorem walk_hops_bound_inv (W : Walker) :
    ∀ (fuel : Nat) (pfx device_name vrf : String)
      (visited exclude_nodes : List String) (current : TracePath)
      (result : TraceResult) (branch_depth tick : Nat) (r : TraceResult)
      (t : Nat),
      current.hops.length ≤ W.max_hops →
      (∀ p ∈ result.paths, p.hops.length ≤ W.max_hops + 1) →
      walk W fuel pfx device_name vrf visited current result branch_depth
        exclude_nodes tick = some (r, t) →
      ∀ p ∈ r.paths, p.hops.length ≤ W.max_hops + 1
  | 0, pfx, dn, vrf, vis, ex, cur, res, bd, tk, r, t => by
    intro _ _ hw
    exact Option.noConfusion hw
  | fuel + 1, pfx, dn, vrf, vis, ex, cur, res, bd, tk, r, t => by
    intro hlen hres hw
    simp only [walk] at hw
    split at hw
    · -- excluded
      rw [Option.some_inj, Prod.mk.injEq] at hw
      obtain ⟨hw1, _⟩ := hw
      subst hw1
      refine paths_inv_push _ res _ hres ?_
      simp only [TracePath.hops_mk, List.length_append, List.length_cons,
        List.length_nil]
      omega
    split at hw
    · -- loop
      rw [Option.some_inj, Prod.mk.injEq] at hw
      obtain ⟨hw1, _⟩ := hw
      subst hw1
      refine paths_inv_push _ res _ hres ?_
      simp only [TracePath.hops_mk, List.length_append, List.length_cons,
        List.length_nil]
      omega
    split at hw
    · -- max_hops
      rw [Option.some_inj, Prod.mk.injEq] at hw
      obtain ⟨hw1, _⟩ := hw
      subst hw1
      refine paths_inv_push _ res _ hres ?_
      simp only [TracePath.hops_mk]
      omega
    rename_i hx hv hmax
    split at hw
    · -- collector error
      rw [Option.some_inj, Prod.mk.injEq] at hw
      obtain ⟨hw1, _⟩ := hw
      subst hw1
      refine paths_inv_push _ res _ hres ?_
      simp only [TracePath.hops_mk, List.length_append, List.length_cons,
        List.length_nil]
      omega
    · -- collector ok
      split at hw
      · -- no entries
        rw [Option.some_inj, Prod.mk.injEq] at hw
        obtain ⟨hw1, _⟩ := hw
        subst hw1
        refine paths_inv_push _ res _ hres ?_
        simp only [TracePath.hops_mk, List.length_append, List.length_cons,
          List.length_nil]
        omega
      · split at hw
        · -- connected origin
          rw [Option.some_inj, Prod.mk.injEq] at hw
          obtain ⟨hw1, _⟩ := hw
          subst hw1
          refine paths_inv_push _ res _ hres ?_
          simp only [TracePath.hops_mk, List.length_append, List.length_cons,
            List.length_nil]
          omega
        · -- forwarding frame
          split at hw
          · -- no next hops: blackhole
            rw [Option.some_inj, Prod.mk.injEq] at hw
            obtain ⟨hw1, _⟩ := hw
            subst hw1
            refine paths_inv_push _ _ _ ?_ ?_
            · intro q hq
              rw [frameStep_paths_eq] at hq
              exact hres q hq
            · simp only [TracePath.hops_mk, List.length_append,
                List.length_cons, List.length_nil]
              omega
          · -- single next hop
            split at hw
            · -- unknown next hop
              rw [Option.some_inj, Prod.mk.injEq] at hw
              obtain ⟨hw1, _⟩ := hw
              subst hw1
              refine paths_inv_push _ _ _ ?_ ?_
              · intro q hq
                rw [frameStep_paths_eq] at hq
                exact hres q hq
              · simp only [TracePath.hops_mk, List.length_append,
                  List.length_cons, List.length_nil]
                omega
            · -- recurse
              refine walk_hops_bound_inv W fuel pfx _ vrf _ ex _ _ bd _ r t
                ?_ ?_ hw
              · simp only [TracePath.hops_mk, List.length_append,
                  List.length_cons, List.length_nil]
                omega
              · intro q hq
                rw [frameStep_paths_eq] at hq
                exact hres q hq
          · -- two or more next hops
            split at hw
            · -- cap reached
              rw [Option.some_inj, Prod.mk.injEq] at hw
              obtain ⟨hw1, _⟩ := hw
              subst hw1
              refine paths_inv_push _ _ _ ?_ ?_
              · intro q hq
                rw [frameStep_paths_eq] at hq
                exact hres q hq
              · simp only [TracePath.hops_mk, List.length_append,
                  List.length_cons, List.length_nil]
                omega
            · -- branch out
              refine walkBranches_inv _ _ W.inventory
                (TracePath.mk (cur.hops ++
                  [(frameStep W dn (roleOf W.inventory dn) _ res tk).1])
                  cur.complete cur.end_reason cur.branches).hops
                ?_ ?_ _ _ _ _ r t rfl ?_ hw
              · intro nd res2 tk2 r2 t2 hres2 hw2
                refine walk_hops_bound_inv W fuel pfx nd vrf _ ex _ _ (bd + 1)
                  tk2 r2 t2 ?_ hres2 hw2
                simp only [TracePath.hops_mk, List.length_append,
                  List.length_cons, List.length_nil]
                omega
              · intro nh
                simp only [TracePath.hops_mk, List.length_append,
                  List.length_cons, List.length_nil]
                omega
              · intro q hq
                simp only [TraceResult.paths] at hq
                rw [frameStep_paths_eq] at hq
                exact hres q hq

/-- C2 counterexample: with max_hops = 1 the trace from a, whose next hop
resolves to the excluded device b, publishes a single path of 2 hops —
the forwarding hop at a plus the terminal excluded stub at b — exceeding
max_hops. -/
theorem C2_counterexample :
    demoW2.max_hops = 1 ∧
    (trace demoW2 3 "8.8.8.0/24" "a" "" ["b"]).map
        (fun R => R.paths.map fun p => p.hops.length) = some [2] ∧
    ¬ (2 ≤ 1) :=
  ⟨rfl, rfl, by decide⟩

/-- C2 amended: every published TracePath has at most max_hops + 1 hops
(the bound max_hops can be exceeded by exactly one terminal stub hop,
because the loop/excluded stubs are appended before the hop-budget check
and the unknown-next-hop stub after the forwarding hop). -/
theorem C2_hops_le_max_hops_succ (W : Walker) (fuel : Nat)
    (pfx start_device vrf : String) (exclude_nodes : List String)
    (R : TraceResult)
    (h : trace W fuel pfx start_device vrf exclude_nodes = some R) :
    ∀ p ∈ R.paths, p.hops.length ≤ W.max_hops + 1 := by
  unfold trace at h
  split at h
  · exact Option.noConfusion h
  next rt t hw =>
    rw [Option.some_inj] at h
    subst h
    intro p hp
    exact walk_hops_bound_inv W fuel pfx start_device vrf [] exclude_nodes
      emptyPath { pfx := pfx, start := start_device } 0 0 rt t
      (by simp [emptyPath, TracePath.hops_mk])
      (fun q hq => absurd hq (List.not_mem_nil q)) hw p hp

/-- Witness for the amended C2 on the hop-budget-one demo trace. -/
theorem C2_witness :
    trace demoW2 3 "8.8.8.0/24" "a" "" ["b"] = some demoRes2 ∧
    ∀ p ∈ demoRes2.paths, p.hops.length ≤ demoW2.max_hops + 1 :=
  ⟨by rfl, C2_hops_le_max_hops_succ demoW2 3 "8.8.8.0/24" "a" "" ["b"]
    demoRes2 (by rfl)⟩

theorem take_cons_ne_nil {α : Type} (n : Nat) (a : α) (l : List α)
    (h : n ≠ 0) : (a :: l).take n ≠ [] := by
  cases n with
  | zero => exact absurd rfl h
  | succ m => simp [List.take]

theorem walkBranches_total_growth
    (recFn : String → TracePath → TraceResult → Nat → Option (TraceResult × Nat))
    (inv : Inventory) (hops0 : List HopResult)
    (hrec : ∀ (nd : String) (res : TraceResult) (tk : Nat),
      ∃ r t, recFn nd (TracePath.mk hops0 false "" []) res tk = some (r, t) ∧
        ∃ ps, r.paths = res.paths ++ ps ∧ ps ≠ []) :
    ∀ (nhs : List String) (current : TracePath) (res : TraceResult) (tk : Nat),
      current.hops = hops0 →
      ∃ r t, walkBranches recFn inv nhs current res tk = some (r, t) ∧
        ∃ ps, r.paths = res.paths ++ ps ∧ (nhs ≠ [] → ps ≠ [])
  | [], current, res, tk => by
    intro _
    exact ⟨res, tk, rfl, [], by simp, fun h => absurd rfl h⟩
  | nh :: rest, current, res, tk => by
    intro hhops
    simp only [walkBranches]
    rw [hhops]
    cases hip : inv.resolve_ip nh with
    | none =>
      simp only [hip, TracePath.hops_mk, TracePath.complete_mk,
        TracePath.branches_mk]
      obtain ⟨r, t, hw, ps, hps, _⟩ :=
        walkBranches_total_growth recFn inv hops0 hrec rest
          (TracePath.mk hops0 current.complete current.end_reason
            (current.branches ++ [TracePath.mk hops0 false "" []]))
          (pushPath res (TracePath.mk
            (hops0 ++ [stubHop ("unknown (" ++ nh ++ ")")
              ("Next-hop " ++ nh ++ " not in inventory")])
            false "not_in_inventory" [])) tk rfl
      refine ⟨r, t, hw, TracePath.mk
        (hops0 ++ [stubHop ("unknown (" ++ nh ++ ")")
          ("Next-hop " ++ nh ++ " not in inventory")])
        false "not_in_inventory" [] :: ps, ?_, fun _ => by simp⟩
      rw [hps]
      simp [pushPath, List.append_assoc]
    | some nd =>
      simp only [hip]
      obtain ⟨r1, t1, hw1, ps1, hps1, hps1ne⟩ := hrec nd res tk
      rw [hw1]
      obtain ⟨r, t, hw, ps2, hps2, _⟩ :=
        walkBranches_total_growth recFn inv hops0 hrec rest
          (TracePath.mk hops0 current.complete current.end_reason
            (current.branches ++ [TracePath.mk hops0 false "" []]))
          r1 t1 rfl
      refine ⟨r, t, hw, ps1 ++ ps2, ?_, fun _ => ?_⟩
      · rw [hps2, hps1, List.append_assoc]
      · intro hemp
        rw [List.append_eq_nil] at hemp
        exact hps1ne hemp.1

theorem pushPath_paths (R : TraceResult) (p : TracePath) :
    (pushPath R p).paths = R.paths ++ [p] := rfl

theorem paths_with_ecmp (R : TraceResult) (eb : List ECMPBranch) :
    ({ R with ecmp_branches := eb } : TraceResult).paths = R.paths := rfl

theorem walk_total_growth (W : Walker) :
    ∀ (fuel : Nat) (pfx device_name vrf : String)
      (visited exclude_nodes : List String) (current : TracePath)
      (result : TraceResult) (branch_depth tick : Nat),
      current.hops.length ≤ W.max_hops →
      W.max_hops + 1 ≤ current.hops.length + fuel →
      ∃ r t, walk W fuel pfx device_name vrf visited current result
          branch_depth exclude_nodes tick = some (r, t) ∧
        ∃ ps, r.paths = result.paths ++ ps ∧ ps ≠ []
  | 0, pfx, dn, vrf, vis, ex, cur, res, bd, tk => by
    intro h1 h2
    exact absurd h1 (by omega)
  | fuel + 1, pfx, dn, vrf, vis, ex, cur, res, bd, tk => by
    intro hlen hfuel
    simp only [walk]
    by_cases hx : dn ∈ ex
    · rw [if_pos hx]
      refine ⟨_, _, rfl, [_], pushPath_paths res _, by simp⟩
    rw [if_neg hx]
    by_cases hv : dn ∈ vis
    · rw [if_pos hv]
      refine ⟨_, _, rfl, [_], pushPath_paths res _, by simp⟩
    rw [if_neg hv]
    by_cases hm : W.max_hops ≤ cur.hops.length
    · rw [if_pos hm]
      refine ⟨_, _, rfl, [_], pushPath_paths res _, by simp⟩
    rw [if_neg hm]
    cases hcol : W.collector_fn dn pfx vrf with
    | error e =>
      simp only [hcol]
      refine ⟨_, _, rfl, [_], pushPath_paths res _, by simp⟩
    | ok entries =>
      simp only [hcol]
      cases entries with
      | nil =>
        simp only [List.isEmpty_nil, if_true]
        refine ⟨_, _, rfl, [_], pushPath_paths res _, by simp⟩
      | cons e0 erest =>
        simp only [List.isEmpty_cons, Bool.false_eq_true, if_false]
        by_cases hbp : ((bestOf (W.inventory.is_firewall dn) (e0 :: erest)).protocol
              == "direct" ||
            (bestOf (W.inventory.is_firewall dn) (e0 :: erest)).protocol
              == "connected" ||
            (bestOf (W.inventory.is_firewall dn) (e0 :: erest)).protocol
              == "local") = true
        · rw [if_pos hbp]
          refine ⟨_, _, rfl, [_], pushPath_paths res _, by simp⟩
        rw [if_neg hbp]
        cases hnh : collect_next_hops (bestOf (W.inventory.is_firewall dn) (e0 :: erest))
            (activesOf (W.inventory.is_firewall dn) (e0 :: erest)) with
        | nil =>
          simp only [TracePath.hops_mk, TracePath.complete_mk,
            TracePath.branches_mk]
          have hgrow : (pushPath (frameStep W dn (roleOf W.inventory dn) (e0 :: erest) res tk).2
              (TracePath.mk (cur.hops ++ [(frameStep W dn (roleOf W.inventory dn) (e0 :: erest) res tk).1]) cur.complete "blackhole"
                cur.branches)).paths
              = res.paths ++ [TracePath.mk (cur.hops ++ [(frameStep W dn (roleOf W.inventory dn) (e0 :: erest) res tk).1]) cur.complete
                  "blackhole" cur.branches] := by
            rw [pushPath_paths, frameStep_paths_eq]
          exact ⟨_, _, rfl, [_], hgrow, by simp⟩
        | cons nh1 nhrest =>
          cases nhrest with
          | nil =>
            simp only [TracePath.hops_mk, TracePath.complete_mk,
              TracePath.branches_mk]
            cases hre : W.inventory.resolve_ip nh1 with
            | none =>
              simp only [hre]
              have hgrow : (pushPath (frameStep W dn (roleOf W.inventory dn) (e0 :: erest) res tk).2
                  (TracePath.mk ((cur.hops ++ [(frameStep W dn (roleOf W.inventory dn) (e0 :: erest) res tk).1]) ++
                    [stubHop ("unknown (" ++ nh1 ++ ")")
                      ("Next-hop " ++ nh1 ++ " not in inventory")])
                    cur.complete "not_in_inventory" cur.branches)).paths
                  = res.paths ++ [TracePath.mk ((cur.hops ++ [(frameStep W dn (roleOf W.inventory dn) (e0 :: erest) res tk).1]) ++
                      [stubHop ("unknown (" ++ nh1 ++ ")")
                        ("Next-hop " ++ nh1 ++ " not in inventory")])
                      cur.complete "not_in_inventory" cur.branches] := by
                rw [pushPath_paths, frameStep_paths_eq]
              exact ⟨_, _, rfl, [_], hgrow, by simp⟩
            | some nd =>
              simp only [hre]
              obtain ⟨r, t, hw, ps, hps, hpsne⟩ :=
                walk_total_growth W fuel pfx nd vrf (dn :: vis) ex
                  (TracePath.mk (cur.hops ++
                    [(frameStep W dn (roleOf W.inventory dn) (e0 :: erest) res tk).1])
                    cur.complete cur.end_reason cur.branches)
                  (frameStep W dn (roleOf W.inventory dn) (e0 :: erest) res tk).2
                  bd (tk + 1)
                  (by simp only [TracePath.hops_mk, List.length_append,
                    List.length_cons, List.length_nil]; omega)
                  (by simp only [TracePath.hops_mk, List.length_append,
                    List.length_cons, List.length_nil]; omega)
              refine ⟨r, t, hw, ps, ?_, hpsne⟩
              rw [hps, frameStep_paths_eq]
          | cons nh2 nhrest2 =>
            simp only [TracePath.hops_mk, TracePath.complete_mk,
              TracePath.branches_mk]
            by_cases hcap : W.max_ecmp_branches ≤ bd
            · rw [if_pos hcap]
              have hgrow : (pushPath (frameStep W dn (roleOf W.inventory dn) (e0 :: erest) res tk).2
                  (TracePath.mk (cur.hops ++ [(frameStep W dn (roleOf W.inventory dn) (e0 :: erest) res tk).1]) cur.complete
                    "ecmp_depth_exceeded" cur.branches)).paths
                  = res.paths ++ [TracePath.mk (cur.hops ++ [(frameStep W dn (roleOf W.inventory dn) (e0 :: erest) res tk).1])
                      cur.complete "ecmp_depth_exceeded" cur.branches] := by
                rw [pushPath_paths, frameStep_paths_eq]
              exact ⟨_, _, rfl, [_], hgrow, by simp⟩
            · rw [if_neg hcap]
              obtain ⟨r, t, hw, ps, hps, hpsne⟩ :=
                walkBranches_total_growth
                  (fun nd cur2 res2 tk2 =>
                    walk W fuel pfx nd vrf (dn :: vis) cur2 res2 (bd + 1) ex tk2)
                  W.inventory
                  (cur.hops ++
                    [(frameStep W dn (roleOf W.inventory dn) (e0 :: erest) res tk).1])
                  (fun nd res2 tk2 =>
                    walk_total_growth W fuel pfx nd vrf (dn :: vis) ex
                      (TracePath.mk (cur.hops ++
                        [(frameStep W dn (roleOf W.inventory dn) (e0 :: erest) res tk).1])
                        false "" [])
                      res2 (bd + 1) tk2
                      (by simp only [TracePath.hops_mk, List.length_append,
                        List.length_cons, List.length_nil]; omega)
                      (by simp only [TracePath.hops_mk, List.length_append,
                        List.length_cons, List.length_nil]; omega))
                  ((nh1 :: nh2 :: nhrest2).take W.max_ecmp_branches)
                  (TracePath.mk (cur.hops ++
                    [(frameStep W dn (roleOf W.inventory dn) (e0 :: erest) res tk).1])
                    cur.complete cur.end_reason cur.branches)
                  _ (tk + 1) rfl
              refine ⟨r, t, hw, ps, ?_,
                hpsne (take_cons_ne_nil _ _ _ (by omega))⟩
              rw [hps, paths_with_ecmp, frameStep_paths_eq]

theorem trace_paths_eq (W : Walker) (fuel : Nat) (pfx sd vrf : String)
    (ex : List String) (r : TraceResult) (t : Nat)
    (hw : walk W fuel pfx sd vrf [] emptyPath { pfx := pfx, start := sd } 0 ex 0
      = some (r, t)) :
    ∃ R, trace W fuel pfx sd vrf ex = some R ∧ R.paths = r.paths := by
  simp only [trace, hw]
  exact ⟨_, rfl, rfl⟩

theorem trace_some_nonempty (W : Walker) (fuel : Nat) (pfx sd vrf : String)
    (ex : List String) (hf : W.max_hops + 1 ≤ fuel) :
    ∃ R, trace W fuel pfx sd vrf ex = some R ∧ R.paths ≠ [] := by
  obtain ⟨r, t, hw, ps, hps, hpsne⟩ :=
    walk_total_growth W fuel pfx sd vrf [] ex emptyPath
      { pfx := pfx, start := sd } 0 0
      (by simp [emptyPath, TracePath.hops_mk])
      (by simp only [emptyPath, TracePath.hops_mk, List.length_nil]; omega)
  obtain ⟨R, hR, hRp⟩ := trace_paths_eq W fuel pfx sd vrf ex r t hw
  refine ⟨R, hR, ?_⟩
  rw [hRp, hps]
  show ([] : List TracePath) ++ ps ≠ []
  rw [List.nil_append]
  exact hpsne

/-- C10: with enough fuel (the recursion depth of _walk is bounded by
max_hops plus one, so the Python function terminates), trace returns a
TraceResult whose paths list is non-empty — every terminal branch
publishes a path and an ECMP branch point spawns at least one child;
consequently simulate_failure returns a result whose failover paths list
is non-empty and whose impact summary is never the "No failover path"
message but one of the two other messages. -/
theorem C10_trace_terminates_nonempty (W : Walker) (fuel : Nat)
    (pfx start_device vrf source destination failed_node vrf2 : String)
    (exclude_nodes : List String) (hf : W.max_hops + 1 ≤ fuel) :
    (∃ R, trace W fuel pfx start_device vrf exclude_nodes = some R ∧
      R.paths ≠ []) ∧
    (∃ F, simulate_failure W fuel source destination failed_node vrf2
        = some F ∧
      F.failover.paths ≠ [] ∧
      F.impact_summary ≠ "No failover path after removing " ++ failed_node ∧
      (F.impact_summary = "Failover succeeded around " ++ failed_node ∨
       F.impact_summary
        = "Failover degraded after removing " ++ failed_node)) := by
  refine ⟨trace_some_nonempty W fuel pfx start_device vrf exclude_nodes hf, ?_⟩
  obtain ⟨Ro, hRo, _⟩ :=
    trace_some_nonempty W fuel destination source vrf2 [] hf
  obtain ⟨Rf, hRf, hRfne⟩ :=
    trace_some_nonempty W fuel destination source vrf2 [failed_node] hf
  have hemp : Rf.paths.isEmpty = false := by
    cases hp : Rf.paths with
    | nil => exact absurd hp hRfne
    | cons a l => rfl
  obtain ⟨F, hF, hFfail, hFimp⟩ :
      ∃ F, simulate_failure W fuel source destination failed_node vrf2
          = some F ∧ F.failover = Rf ∧
        F.impact_summary
          = (if Rf.paths.isEmpty then
              "No failover path after removing " ++ failed_node
            else if Rf.paths.any (·.complete) then
              "Failover succeeded around " ++ failed_node
            else "Failover degraded after removing " ++ failed_node) := by
    simp only [simulate_failure, hRo, hRf]
    exact ⟨_, rfl, rfl, rfl⟩
  rw [hemp] at hFimp
  simp only [Bool.false_eq_true, if_false] at hFimp
  have hlensucc : ("Failover succeeded around " ++ failed_node).length
      = 26 + failed_node.length := by
    rw [String.length_append,
      show ("Failover succeeded around ").length = 26 from rfl]
  have hlendeg : ("Failover degraded after removing " ++ failed_node).length
      = 33 + failed_node.length := by
    rw [String.length_append,
      show ("Failover degraded after removing ").length = 33 from rfl]
  have hlenno : ("No failover path after removing " ++ failed_node).length
      = 32 + failed_node.length := by
    rw [String.length_append,
      show ("No failover path after removing ").length = 32 from rfl]
  refine ⟨F, hF, by rw [hFfail]; exact hRfne, ?_, ?_⟩
  · intro hcontra
    rw [hFimp] at hcontra
    by_cases hany : Rf.paths.any (·.complete) = true
    · rw [if_pos hany] at hcontra
      have := congrArg String.length hcontra
      rw [hlensucc, hlenno] at this
      omega
    · rw [if_neg hany] at hcontra
      have := congrArg String.length hcontra
      rw [hlendeg, hlenno] at this
      omega
  · rw [hFimp]
    by_cases hany : Rf.paths.any (·.complete) = true
    · rw [if_pos hany]
      exact Or.inl rfl
    · rw [if_neg hany]
      exact Or.inr rfl

theorem C10_witness :
    demoW.max_hops + 1 ≤ 21 ∧
    ((∃ R, trace demoW 21 "8.8.8.0/24" "a" "" [] = some R ∧ R.paths ≠ []) ∧
     (∃ F, simulate_failure demoW 21 "a" "8.8.8.0/24" "b" "" = some F ∧
       F.failover.paths ≠ [] ∧
       F.impact_summary ≠ "No failover path after removing " ++ "b" ∧
       (F.impact_summary = "Failover succeeded around " ++ "b" ∨
        F.impact_summary = "Failover degraded after removing " ++ "b"))) :=
  ⟨by decide, C10_trace_terminates_nonempty demoW 21 "8.8.8.0/24" "a" "" "a"
    "8.8.8.0/24" "b" "" [] (by decide)⟩

theorem erasePath_components (p : TracePath) :
    erasePath p = TracePath.mk (p.hops.map eraseHop) p.complete p.end_reason
      (erasePaths p.branches) := by
  cases p
  rfl

theorem erasePaths_append : ∀ (a b : List TracePath),
    erasePaths (a ++ b) = erasePaths a ++ erasePaths b
  | [], b => rfl
  | p :: t, b => by
    simp only [List.cons_append, erasePaths, erasePaths_append t b,
      List.append_eq]

theorem erasePath_parts (cur1 cur2 : TracePath)
    (h : erasePath cur1 = erasePath cur2) :
    cur1.hops.map eraseHop = cur2.hops.map eraseHop ∧
    cur1.complete = cur2.complete ∧
    cur1.end_reason = cur2.end_reason ∧
    erasePaths cur1.branches = erasePaths cur2.branches := by
  rw [erasePath_components, erasePath_components] at h
  injection h with h1 h2 h3 h4
  exact ⟨h1, h2, h3, h4⟩

theorem eraseResult_parts (r1 r2 : TraceResult)
    (h : eraseResult r1 = eraseResult r2) :
    r1.pfx = r2.pfx ∧ r1.start = r2.start ∧
    erasePaths r1.paths = erasePaths r2.paths ∧
    r1.ecmp_branches = r2.ecmp_branches ∧
    r1.domain_crossings = r2.domain_crossings ∧
    r1.origin_type = r2.origin_type ∧ r1.origin_router = r2.origin_router := by
  have h1 := congrArg TraceResult.pfx h
  have h2 := congrArg TraceResult.start h
  have h3 := congrArg TraceResult.paths h
  have h4 := congrArg TraceResult.ecmp_branches h
  have h5 := congrArg TraceResult.domain_crossings h
  have h6 := congrArg TraceResult.origin_type h
  have h7 := congrArg TraceResult.origin_router h
  exact ⟨h1, h2, h3, h4, h5, h6, h7⟩

theorem eraseResult_pushPath (R : TraceResult) (p : TracePath) :
    eraseResult (pushPath R p) = pushPath (eraseResult R) (erasePath p) := by
  simp only [eraseResult, pushPath, erasePaths_append]
  rfl

theorem eraseResult_cong_push (r1 r2 : TraceResult) (p1 p2 : TracePath)
    (hr : eraseResult r1 = eraseResult r2) (hp : erasePath p1 = erasePath p2) :
    eraseResult (pushPath r1 p1) = eraseResult (pushPath r2 p2) := by
  rw [eraseResult_pushPath, eraseResult_pushPath, hr, hp]

theorem erasePath_cong_mk_gen (hs hs2 : List HopResult) (c1 c2 : Bool)
    (r1 r2 : String) (brs brs2 : List TracePath)
    (hh : hs.map eraseHop = hs2.map eraseHop) (hc : c1 = c2) (hr : r1 = r2)
    (hb : erasePaths brs = erasePaths brs2) :
    erasePath (TracePath.mk hs c1 r1 brs)
      = erasePath (TracePath.mk hs2 c2 r2 brs2) := by
  rw [erasePath_components, erasePath_components]
  simp only [TracePath.hops_mk, TracePath.complete_mk, TracePath.end_reason_mk,
    TracePath.branches_mk, hh, hc, hr, hb]

theorem eraseHop_set_dc (h : HopResult) (v : Option DomainCrossing) :
    eraseHop { h with domain_crossing := v }
      = { eraseHop h with domain_crossing := v } := rfl

theorem eraseResult_set_dcs (r : TraceResult) (x : List DomainCrossing) :
    eraseResult { r with domain_crossings := x }
      = { eraseResult r with domain_crossings := x } := rfl

theorem eraseResult_set_ecmp (r : TraceResult) (x : List ECMPBranch) :
    eraseResult { r with ecmp_branches := x }
      = { eraseResult r with ecmp_branches := x } := rfl

theorem eraseResult_components (r : TraceResult) :
    eraseResult r = ⟨r.pfx, r.start, erasePaths r.paths, none,
      r.ecmp_branches, r.domain_crossings, r.origin_type, r.origin_router⟩ :=
  rfl

theorem eraseHop_frame (W1 W2 : Walker) (d role : String)
    (entries : List RouteEntry) (r1 r2 : TraceResult) (tk : Nat)
    (hinv : W1.inventory = W2.inventory) (hplg : W1.plugins = W2.plugins) :
    eraseHop (frameStep W1 d role entries r1 tk).1
      = eraseHop (frameStep W2 d role entries r2 tk).1 := by
  unfold frameStep applyCrossing framedHop
  rw [hinv, hplg]
  cases W2.inventory.get_domain_crossing d
      (bestOf (W2.inventory.is_firewall d) entries).next_hop with
  | none => rfl
  | some c => rfl

theorem eraseResult_frame (W1 W2 : Walker) (d role : String)
    (entries : List RouteEntry) (r1 r2 : TraceResult) (tk : Nat)
    (hinv : W1.inventory = W2.inventory)
    (hr : eraseResult r1 = eraseResult r2) :
    eraseResult (frameStep W1 d role entries r1 tk).2
      = eraseResult (frameStep W2 d role entries r2 tk).2 := by
  obtain ⟨hpfx, hst, hpaths, hecmp, hdc, hot, hor⟩ := eraseResult_parts r1 r2 hr
  unfold frameStep applyCrossing framedHop
  rw [hinv]
  cases W2.inventory.get_domain_crossing d
      (bestOf (W2.inventory.is_firewall d) entries).next_hop with
  | none => exact hr
  | some c =>
    rw [eraseResult_components, eraseResult_components]
    simp only [TraceResult.mk.injEq]
    exact ⟨hpfx, hst, hpaths, trivial, hecmp, by rw [hdc], hot, hor⟩

theorem walkBranches_optRel
    (recFn1 recFn2 : String → TracePath → TraceResult → Nat →
      Option (TraceResult × Nat))
    (inv : Inventory)
    (hrec : ∀ (nd : String) (cur1 cur2 : TracePath) (res1 res2 : TraceResult)
      (tk : Nat), erasePath cur1 = erasePath cur2 →
      eraseResult res1 = eraseResult res2 →
      optRel (recFn1 nd cur1 res1 tk) (recFn2 nd cur2 res2 tk)) :
    ∀ (nhs : List String) (cur1 cur2 : TracePath) (res1 res2 : TraceResult)
      (tk : Nat),
      erasePath cur1 = erasePath cur2 → eraseResult res1 = eraseResult res2 →
      optRel (walkBranches recFn1 inv nhs cur1 res1 tk)
             (walkBranches recFn2 inv nhs cur2 res2 tk)
  | [], cur1, cur2, res1, res2, tk => by
    intro _ hres
    exact ⟨hres, rfl⟩
  | nh :: rest, cur1, cur2, res1, res2, tk => by
    intro hcur hres
    obtain ⟨hhops, hcomp, her, hbr⟩ := erasePath_parts cur1 cur2 hcur
    have hbranch : erasePath (TracePath.mk cur1.hops false "" [])
        = erasePath (TracePath.mk cur2.hops false "" []) :=
      erasePath_cong_mk_gen _ _ _ _ _ _ _ _ hhops rfl rfl rfl
    have hcur2 : erasePath (TracePath.mk cur1.hops cur1.complete
          cur1.end_reason (cur1.branches ++ [TracePath.mk cur1.hops false "" []]))
        = erasePath (TracePath.mk cur2.hops cur2.complete cur2.end_reason
          (cur2.branches ++ [TracePath.mk cur2.hops false "" []])) := by
      refine erasePath_cong_mk_gen _ _ _ _ _ _ _ _ hhops hcomp her ?_
      rw [erasePaths_append, erasePaths_append, hbr]
      simp only [erasePaths, hbranch]
    simp only [walkBranches, TracePath.hops_mk, TracePath.complete_mk,
      TracePath.branches_mk]
    cases hip : inv.resolve_ip nh with
    | none =>
      simp only [hip]
      refine walkBranches_optRel recFn1 recFn2 inv hrec rest _ _ _ _ tk hcur2 ?_
      refine eraseResult_cong_push _ _ _ _ hres ?_
      refine erasePath_cong_mk_gen _ _ _ _ _ _ _ _ ?_ rfl rfl rfl
      simp only [List.map_append, hhops]
    | some nd =>
      simp only [hip]
      have h := hrec nd _ _ res1 res2 tk hbranch hres
      cases hc1 : recFn1 nd (TracePath.mk cur1.hops false "" []) res1 tk with
      | none =>
        cases hc2 : recFn2 nd (TracePath.mk cur2.hops false "" []) res2 tk with
        | none =>
          simp only [hc1, hc2]
          trivial
        | some rt2 =>
          rw [hc1, hc2] at h
          exact False.elim h
      | some rt1 =>
        cases hc2 : recFn2 nd (TracePath.mk cur2.hops false "" []) res2 tk with
        | none =>
          rw [hc1, hc2] at h
          exact False.elim h
        | some rt2 =>
          rw [hc1, hc2] at h
          obtain ⟨hre, hte⟩ := h
          simp only [hc1, hc2]
          rw [hte]
          exact walkBranches_optRel recFn1 recFn2 inv hrec rest _ _ _ _ _
            hcur2 hre

theorem walk_clock_rel (W1 W2 : Walker)
    (hinv : W1.inventory = W2.inventory)
    (hcol : W1.collector_fn = W2.collector_fn)
    (hplg : W1.plugins = W2.plugins)
    (hmh : W1.max_hops = W2.max_hops)
    (hmeb : W1.max_ecmp_branches = W2.max_ecmp_branches) :
    ∀ (fuel : Nat) (pfx dn vrf : String) (visited : List String)
      (cur1 cur2 : TracePath) (res1 res2 : TraceResult) (bd : Nat)
      (ex : List String) (tk : Nat),
      erasePath cur1 = erasePath cur2 →
      eraseResult res1 = eraseResult res2 →
      optRel (walk W1 fuel pfx dn vrf visited cur1 res1 bd ex tk)
             (walk W2 fuel pfx dn vrf visited cur2 res2 bd ex tk)
  | 0, pfx, dn, vrf, vis, cur1, cur2, res1, res2, bd, ex, tk => by
    intro _ _
    trivial
  | fuel + 1, pfx, dn, vrf, vis, cur1, cur2, res1, res2, bd, ex, tk => by
    intro hcur hres
    obtain ⟨hhops, hcomp, her, hbr⟩ := erasePath_parts cur1 cur2 hcur
    have hlen : cur1.hops.length = cur2.hops.length := by
      have h := congrArg List.length hhops
      rwa [List.length_map, List.length_map] at h
    simp only [walk]
    rw [hinv, hcol, hmh, hmeb, hlen]
    by_cases hx : dn ∈ ex
    · simp only [if_pos hx]
      exact ⟨eraseResult_cong_push _ _ _ _ hres
        (erasePath_cong_mk_gen _ _ _ _ _ _ _ _
          (by simp only [List.map_append, hhops]) rfl rfl hbr), rfl⟩
    simp only [if_neg hx]
    by_cases hv : dn ∈ vis
    · simp only [if_pos hv]
      exact ⟨eraseResult_cong_push _ _ _ _ hres
        (erasePath_cong_mk_gen _ _ _ _ _ _ _ _
          (by simp only [List.map_append, hhops]) rfl rfl hbr), rfl⟩
    simp only [if_neg hv]
    by_cases hm : W2.max_hops ≤ cur2.hops.length
    · simp only [if_pos hm]
      exact ⟨eraseResult_cong_push _ _ _ _ hres
        (erasePath_cong_mk_gen _ _ _ _ _ _ _ _ hhops rfl rfl hbr), rfl⟩
    simp only [if_neg hm]
    cases hc : W2.collector_fn dn pfx vrf with
    | error e =>
      simp only [hc]
      exact ⟨eraseResult_cong_push _ _ _ _ hres
        (erasePath_cong_mk_gen _ _ _ _ _ _ _ _
          (by simp only [List.map_append, hhops]) hcomp rfl hbr), rfl⟩
    | ok entries =>
      simp only [hc]
      cases entries with
      | nil =>
        simp only [List.isEmpty_nil, if_true]
        exact ⟨eraseResult_cong_push _ _ _ _ hres
          (erasePath_cong_mk_gen _ _ _ _ _ _ _ _
            (by simp only [List.map_append, hhops]) hcomp rfl hbr), rfl⟩
      | cons e0 erest =>
        simp only [List.isEmpty_cons, Bool.false_eq_true, if_false]
        by_cases hbp : ((bestOf (W2.inventory.is_firewall dn) (e0 :: erest)).protocol
              == "direct" ||
            (bestOf (W2.inventory.is_firewall dn) (e0 :: erest)).protocol
              == "connected" ||
            (bestOf (W2.inventory.is_firewall dn) (e0 :: erest)).protocol
              == "local") = true
        · simp only [if_pos hbp]
          exact ⟨eraseResult_cong_push _ _ _ _ hres
            (erasePath_cong_mk_gen _ _ _ _ _ _ _ _
              (by simp only [List.map_append, hhops]) rfl rfl hbr), rfl⟩
        simp only [if_neg hbp]
        have hfh := eraseHop_frame W1 W2 dn (roleOf W2.inventory dn)
          (e0 :: erest) res1 res2 tk hinv hplg
        have hfr := eraseResult_frame W1 W2 dn (roleOf W2.inventory dn)
          (e0 :: erest) res1 res2 tk hinv hres
        obtain ⟨hfpfx, hfst, hfpaths, hfecmp, hfdc, hfot, hfor⟩ :=
          eraseResult_parts _ _ hfr
        have hhops1 : (cur1.hops ++
              [(frameStep W1 dn (roleOf W2.inventory dn) (e0 :: erest) res1 tk).1]).map
                eraseHop
            = (cur2.hops ++
              [(frameStep W2 dn (roleOf W2.inventory dn) (e0 :: erest) res2 tk).1]).map
                eraseHop := by
          simp only [List.map_append, List.map_cons, List.map_nil, hhops, hfh]
        cases hnh : collect_next_hops (bestOf (W2.inventory.is_firewall dn) (e0 :: erest))
            (activesOf (W2.inventory.is_firewall dn) (e0 :: erest)) with
        | nil =>
          simp only [hnh, TracePath.hops_mk, TracePath.complete_mk,
            TracePath.branches_mk]
          exact ⟨eraseResult_cong_push _ _ _ _ hfr
            (erasePath_cong_mk_gen _ _ _ _ _ _ _ _ hhops1 hcomp rfl hbr), rfl⟩
        | cons nh1 nhrest =>
          cases nhrest with
          | nil =>
            simp only [hnh, TracePath.hops_mk, TracePath.complete_mk,
              TracePath.end_reason_mk, TracePath.branches_mk]
            cases hre : W2.inventory.resolve_ip nh1 with
            | none =>
              simp only [hre]
              exact ⟨eraseResult_cong_push _ _ _ _ hfr
                (erasePath_cong_mk_gen _ _ _ _ _ _ _ _
                  (by simp only [List.map_append, List.map_cons, List.map_nil,
                    hhops, hfh]) hcomp rfl hbr), rfl⟩
            | some nd =>
              simp only [hre]
              exact walk_clock_rel W1 W2 hinv hcol hplg hmh hmeb fuel pfx nd
                vrf (dn :: vis) _ _ _ _ bd ex (tk + 1)
                (erasePath_cong_mk_gen _ _ _ _ _ _ _ _ hhops1 hcomp her hbr) hfr
          | cons nh2 nhrest2 =>
            simp only [hnh, TracePath.hops_mk, TracePath.complete_mk,
              TracePath.end_reason_mk, TracePath.branches_mk]
            by_cases hcap : W2.max_ecmp_branches ≤ bd
            · simp only [if_pos hcap]
              exact ⟨eraseResult_cong_push _ _ _ _ hfr
                (erasePath_cong_mk_gen _ _ _ _ _ _ _ _ hhops1 hcomp rfl hbr), rfl⟩
            · simp only [if_neg hcap]
              have hres2 : eraseResult
                  { (frameStep W1 dn (roleOf W2.inventory dn) (e0 :: erest) res1 tk).2
                    with ecmp_branches :=
                      (frameStep W1 dn (roleOf W2.inventory dn) (e0 :: erest) res1 tk).2.ecmp_branches
                        ++ [⟨dn, bd, nh1 :: nh2 :: nhrest2,
                          (nh1 :: nh2 :: nhrest2).take W2.max_ecmp_branches⟩] }
                  = eraseResult
                  { (frameStep W2 dn (roleOf W2.inventory dn) (e0 :: erest) res2 tk).2
                    with ecmp_branches :=
                      (frameStep W2 dn (roleOf W2.inventory dn) (e0 :: erest) res2 tk).2.ecmp_branches
                        ++ [⟨dn, bd, nh1 :: nh2 :: nhrest2,
                          (nh1 :: nh2 :: nhrest2).take W2.max_ecmp_branches⟩] } := by
                rw [eraseResult_components, eraseResult_components]
                simp only [TraceResult.mk.injEq]
                exact ⟨hfpfx, hfst, hfpaths, trivial, by rw [hfecmp], hfdc,
                  hfot, hfor⟩
              exact walkBranches_optRel _ _ _
                (fun nd c1x c2x r1x r2x tkx hcx hrx =>
                  walk_clock_rel W1 W2 hinv hcol hplg hmh hmeb fuel pfx nd vrf
                    (dn :: vis) c1x c2x r1x r2x (bd + 1) ex tkx hcx hrx)
                _ _ _ _ _ _
                (erasePath_cong_mk_gen _ _ _ _ _ _ _ _ hhops1 hcomp her hbr)
                hres2

theorem getLastOpt_map : ∀ (l : List HopResult),
    (l.map eraseHop).getLast? = l.getLast?.map eraseHop
  | [] => rfl
  | [_] => rfl
  | a :: b :: t => by
    rw [List.map_cons, List.map_cons, List.getLast?_cons_cons,
      List.getLast?_cons_cons, ← List.map_cons]
    exact getLastOpt_map (b :: t)

theorem detect_origin_erase : ∀ (l1 l2 : List TracePath),
    erasePaths l1 = erasePaths l2 →
    detect_origin_from_paths l1 = detect_origin_from_paths l2
  | [], [] => fun _ => rfl
  | [], _ :: _ => by
    intro h
    simp only [erasePaths] at h
    exact List.noConfusion h
  | _ :: _, [] => by
    intro h
    simp only [erasePaths] at h
    exact List.noConfusion h
  | p :: rest, q :: rest2 => by
    intro h
    simp only [erasePaths, List.cons.injEq] at h
    obtain ⟨hpq, hrest⟩ := h
    obtain ⟨hhops, hcomp, her, hbr⟩ := erasePath_parts p q hpq
    have hlast : (p.hops.map eraseHop).getLast? = (q.hops.map eraseHop).getLast? := by
      rw [hhops]
    rw [getLastOpt_map, getLastOpt_map] at hlast
    simp only [detect_origin_from_paths]
    cases hp : p.hops.getLast? with
    | none =>
      cases hq : q.hops.getLast? with
      | none =>
        simp only [hp, hq]
        exact detect_origin_erase rest rest2 hrest
      | some lq =>
        rw [hp, hq] at hlast
        simp only [Option.map] at hlast
        exact Option.noConfusion hlast
    | some lp =>
      cases hq : q.hops.getLast? with
      | none =>
        rw [hp, hq] at hlast
        simp only [Option.map] at hlast
        exact Option.noConfusion hlast
      | some lq =>
        rw [hp, hq] at hlast
        simp only [Option.map, Option.some.injEq] at hlast
        have hd0 := congrArg HopResult.device hlast
        have hp0 := congrArg HopResult.protocol hlast
        have hdev : lp.device = lq.device := hd0
        have hprot : lp.protocol = lq.protocol := hp0
        simp only [hp, hq]
        rw [her, hdev, hprot, detect_origin_erase rest rest2 hrest]

/-- C9: PathWalker.trace is deterministic given pure collaborators — two
walkers sharing the same inventory, collector, plugins, max_hops and
max_ecmp_branches but arbitrarily different clocks produce traces that are
equal after erasing the timing fields (total_time_ms and every hop's
query_time_ms): published paths, hop sequences, ECMP-Branch records and
domain crossings coincide. -/
theorem C9_trace_deterministic_modulo_timing
    (inv : Inventory)
    (col : String → String → String → Except String (List RouteEntry))
    (plg : List CommunityDecoderPlugin) (mh meb : Nat)
    (c1 c2 : Nat → Nat) (ct1 ct2 : Nat)
    (fuel : Nat) (pfx sd vrf : String) (ex : List String) :
    Option.map eraseResult
        (trace (Walker.mk inv col plg mh meb c1 ct1) fuel pfx sd vrf ex)
      = Option.map eraseResult
        (trace (Walker.mk inv col plg mh meb c2 ct2) fuel pfx sd vrf ex) := by
  have hrel := walk_clock_rel (Walker.mk inv col plg mh meb c1 ct1)
    (Walker.mk inv col plg mh meb c2 ct2) rfl rfl rfl rfl rfl fuel pfx sd vrf
    [] emptyPath emptyPath { pfx := pfx, start := sd }
    { pfx := pfx, start := sd } 0 ex 0 rfl rfl
  cases h1 : walk (Walker.mk inv col plg mh meb c1 ct1) fuel pfx sd vrf []
      emptyPath { pfx := pfx, start := sd } 0 ex 0 with
  | none =>
    cases h2 : walk (Walker.mk inv col plg mh meb c2 ct2) fuel pfx sd vrf []
        emptyPath { pfx := pfx, start := sd } 0 ex 0 with
    | none => simp only [trace, h1, h2, Option.map]
    | some rt2 =>
      rw [h1, h2] at hrel
      exact False.elim hrel
  | some rt1 =>
    cases h2 : walk (Walker.mk inv col plg mh meb c2 ct2) fuel pfx sd vrf []
        emptyPath { pfx := pfx, start := sd } 0 ex 0 with
    | none =>
      rw [h1, h2] at hrel
      exact False.elim hrel
    | some rt2 =>
      rw [h1, h2] at hrel
      obtain ⟨hre, -⟩ := hrel
      obtain ⟨hpfx, hst, hpaths, hecmp, hdc, hot, hor⟩ :=
        eraseResult_parts rt1.1 rt2.1 hre
      have hd : detect_origin_from_paths rt1.1.paths
          = detect_origin_from_paths rt2.1.paths :=
        detect_origin_erase _ _ hpaths
      have h1f := congrArg Prod.fst hd
      have h2f := congrArg Prod.snd hd
      simp only [trace, h1, h2, Option.map]
      rw [Option.some_inj]
      rw [eraseResult_components, eraseResult_components]
      simp only [TraceResult.mk.injEq]
      exact ⟨hpfx, hst, hpaths, trivial, hecmp, hdc, h1f, h2f⟩
